import Mathlib

/-
Verification development for the xatra-gui backend (src/main.py).

The sections below give a shallow embedding of the subsystems the claims
talk about: the territory-expression parser and compressor, the territory
algebra evaluator with its memo cache and cycle guard, the resolver of
cross-artifact imports, the builder-payload sanitizer, the render-job
orchestrator with its per-slot process table and render cache, and the
sliding-window rate limiter.  Python dictionaries are represented by
typed records and inductives; machine floats used only as timestamps are
represented by exact numbers; code that can raise is represented with
Option/Except.
-/

namespace XatraGui

/-! ### Python string primitives

`str.strip` and `str.lower` are modelled character-wise over the string
data, so that everything evaluates inside the kernel. -/

/-- Whitespace predicate used by Python's `str.strip` (ASCII whitespace). -/
def pyWS (c : Char) : Bool := c.isWhitespace

/-- Model of Python `str.strip` on the character list: drop leading and
trailing whitespace. -/
def pyStripList (l : List Char) : List Char :=
  ((l.dropWhile pyWS).reverse.dropWhile pyWS).reverse

/-- Model of Python `str.strip`. -/
def pyStrip (s : String) : String := ⟨pyStripList s.data⟩

/-- Python falsiness test for a string (`not s`). -/
def pyEmpty (s : String) : Bool := s.data.isEmpty

/-- Model of Python `str.lower` (ASCII). -/
def pyLower (s : String) : String := ⟨s.data.map Char.toLower⟩

/-- Model of Python `s.startswith(c)` for a one-character prefix. -/
def pyStartsWith (s : String) (c : Char) : Bool :=
  match s.data with
  | [] => false
  | d :: _ => d == c

/-- Split a character list at every occurrence of `sep`. -/
def splitCharsOn (sep : Char) : List Char → List (List Char)
  | [] => [[]]
  | c :: rest =>
    let r := splitCharsOn sep rest
    if c == sep then [] :: r
    else
      match r with
      | [] => [[c]]
      | h :: t => (c :: h) :: t

/-- Model of Python `s.split(sep)` for a one-character separator. -/
def splitStringOn (sep : Char) (s : String) : List String :=
  (splitCharsOn sep s.data).map (fun cs => ⟨cs⟩)

/-! ### Territory expression parts

A parsed territory expression is a Python list of part dictionaries
`{"type": ..., "value": ..., "op": ...}` where `value` is a string, a
list of strings, or (for `type == "group"`) a nested list of parts.  The
three well-formed shapes the code constructs are modelled by the mutual
inductive below; `op` is stored with the Python read-out default
`"union"` for parts the code creates without an explicit `"op"` key
(`part.get("op", "union")`). -/

mutual
inductive TerrPart where
  | leafS (ptype op v : String)
  | leafL (ptype op : String) (vs : List String)
  | group (op : String) (ps : TerrParts)
deriving DecidableEq, Repr
inductive TerrParts where
  | nil
  | cons (p : TerrPart) (tl : TerrParts)
deriving DecidableEq, Repr
end

/-- Number of parts in a part list. -/
def TerrParts.length : TerrParts → Nat
  | .nil => 0
  | .cons _ tl => 1 + tl.length

/-- Append one part at the end (Python `parts.append(...)`). -/
def TerrParts.snoc : TerrParts → TerrPart → TerrParts
  | .nil, p => .cons p .nil
  | .cons q tl, p => .cons q (tl.snoc p)

/-- The `"type"` key of a part. -/
def TerrPart.getType : TerrPart → String
  | .leafS t _ _ => t
  | .leafL t _ _ => t
  | .group _ _ => "group"

/-- `part.get("op", "union")`. -/
def TerrPart.getOp : TerrPart → String
  | .leafS _ o _ => o
  | .leafL _ o _ => o
  | .group o _ => o

/-- `part["op"] = o`. -/
def TerrPart.setOp (o : String) : TerrPart → TerrPart
  | .leafS t _ v => .leafS t o v
  | .leafL t _ vs => .leafL t o vs
  | .group _ ps => .group o ps

/-! ### `_compress_multi_value_parts` (src/main.py:1902) -/

/-- The per-part loop of `_compress_multi_value_parts`: checks each part
against the base type, demands `op == "union"` for parts after the
first, and collects the stripped value strings.  Returns `none` exactly
where the Python function returns `None` from inside the loop. -/
def collectCompressValues (baseType : String) (allowListValues : Bool)
    (isFirst : Bool) : TerrParts → Option (List String)
  | .nil => some []
  | .cons p rest =>
    if p.getType != baseType then none
    else if !isFirst && p.getOp != "union" then none
    else
      match p with
      | .leafS _ _ v =>
        if pyEmpty (pyStrip v) then none
        else (collectCompressValues baseType allowListValues false rest).map
          (fun tl => pyStrip v :: tl)
      | .leafL _ _ vs =>
        if !allowListValues then none
        else if vs.any (fun item => pyEmpty (pyStrip item)) then none
        else if vs.isEmpty then none
        else (collectCompressValues baseType allowListValues false rest).map
          (fun tl => vs.map pyStrip ++ tl)
      | .group _ _ => none

/-- Model of `_compress_multi_value_parts`: collapse a run of at least two
same-kind parts, union-joined after the first, into one multi-value
leaf.  The Python result dictionary carries no `"op"` key; every reader
uses `part.get("op", "union")`, so the model stores the default. -/
def compressMultiValueParts (parts : TerrParts) (allowListValues : Bool) : Option TerrPart :=
  if parts.length < 2 then none
  else
    match parts with
    | .nil => none
    | .cons p _ =>
      let baseType := p.getType
      if baseType != "gadm" && baseType != "predefined" then none
      else
        match collectCompressValues baseType allowListValues true parts with
        | none => none
        | some values =>
          if values.length < 2 then none
          else some (.leafL baseType "union" values)

/-! ### Python AST fragment and `_parse_territory_expr` (src/main.py:1965) -/

/-- The binary operators `_parse_territory_expr` recognises, plus a
representative for every other `ast` operator. -/
inductive PyOp where
  | bitor
  | sub
  | bitand
  | otherOp
deriving DecidableEq, Repr

/-- The fragment of Python expression AST that the territory-expression
parser examines.  `callGadm`/`callPolygon` stand for `gadm("...")` /
`polygon(<literal>)` calls whose argument reduced to a literal
(`_python_value`); `otherExpr` stands for every node shape the parser
does not recognise as an operand. -/
inductive PyExpr where
  | callGadm (arg : String)
  | callPolygon (argJson : String)
  | name (id : String)
  | attr (base attrName : String)
  | binop (op : PyOp) (left right : PyExpr)
  | otherExpr
deriving DecidableEq, Repr

/-- `_territory_op_from_binop`. -/
def territoryOpFromBinop (op : PyOp) : String :=
  match op with
  | .sub => "difference"
  | .bitand => "intersection"
  | _ => "union"

/-- Is the node's operator one of `BitOr | Sub | BitAnd`? -/
def isTerrBinop (op : PyOp) : Bool :=
  op == .bitor || op == .sub || op == .bitand

/-- Body of `_parse_territory_operand`.  The Python function, on a
recognised `BinOp` node, first recomputes `_parse_territory_expr(node)`;
to keep the recursion structural that recomputed list is passed in as
`groupParts` (the wrapper `parseTerritoryOperand` below restores the
original calling convention). -/
def parseTerritoryOperandWith (node : PyExpr) (groupParts : TerrParts) : Option TerrPart :=
  match node with
  | .callGadm v => some (.leafS "gadm" "union" v)
  | .callPolygon j => some (.leafS "polygon" "union" j)
  | .name id => some (.leafS "predefined" "union" id)
  | .attr b a => some (.leafS "predefined" "union" (b ++ "." ++ a))
  | .binop op _ _ =>
    if isTerrBinop op then
      match groupParts with
      | .cons p .nil => some p
      | _ =>
        match compressMultiValueParts groupParts false with
        | some c => some c
        | none => some (.group "union" groupParts)
    else none
  | .otherExpr => none

/-- Model of `_parse_territory_expr`: flatten a left-leaning chain of
`| - &` operators into the part list, tagging each operand after the
first with the operator that precedes it, and recompress a whole
`BitOr` chain of length at least 3. -/
def parseTerritoryExpr : PyExpr → TerrParts
  | .binop op l r =>
    if isTerrBinop op then
      let parts := parseTerritoryExpr l
      let parts :=
        match parseTerritoryOperandWith r (parseTerritoryExpr r) with
        | some rp =>
          parts.snoc (rp.setOp (if parts.length == 0 then "union" else territoryOpFromBinop op))
        | none => parts
      if op == .bitor && 3 ≤ parts.length then
        match compressMultiValueParts parts true with
        | some c => .cons c .nil
        | none => parts
      else parts
    else
      match parseTerritoryOperandWith (.binop op l r) .nil with
      | some p => .cons (p.setOp "union") .nil
      | none => .nil
  | node =>
    match parseTerritoryOperandWith node .nil with
    | some p => .cons (p.setOp "union") .nil
    | none => .nil

/-- `_parse_territory_operand` with its original calling convention. -/
def parseTerritoryOperand (node : PyExpr) : Option TerrPart :=
  parseTerritoryOperandWith node (parseTerritoryExpr node)

/-! ### Geometry and `eval_territory_parts` (src/main.py:4669)

Geometry objects are opaque values supporting union/difference/
intersection; they are modelled by the free algebra over the provider
calls.  Their meaning as point sets is given by `Geometry.interp`. -/

inductive Geometry where
  | gadm (code : String)
  | polygon (coordsJson : String)
  | union (a b : Geometry)
  | difference (a b : Geometry)
  | intersection (a b : Geometry)
deriving DecidableEq, Repr

/-- Point-set semantics of a geometry, given interpretations of the two
provider lookups. -/
def Geometry.interp {α : Type} (σg σp : String → Set α) : Geometry → Set α
  | .gadm c => σg c
  | .polygon c => σp c
  | .union a b => a.interp σg σp ∪ b.interp σg σp
  | .difference a b => a.interp σg σp \ b.interp σg σp
  | .intersection a b => a.interp σg σp ∩ b.interp σg σp

/-- The inner loop of the `"gadm"` branch of `eval_territory_parts`:
fold the non-empty stripped codes into a union, starting from `piece`. -/
def foldGadmVals (piece : Option Geometry) : List String → Option Geometry
  | [] => piece
  | v :: rest =>
    if pyEmpty (pyStrip v) then foldGadmVals piece rest
    else
      let terr := Geometry.gadm (pyStrip v)
      foldGadmVals (some (match piece with | none => terr | some p => .union p terr)) rest

/-- The inner loop of the `"predefined"` branch of
`eval_territory_parts`: resolve each non-empty stripped name through the
(stateful) resolver, skipping names that resolve to `None`. -/
def foldPredefVals {σ : Type} (resolver : σ → String → σ × Option Geometry)
    (st : σ) (piece : Option Geometry) : List String → σ × Option Geometry
  | [] => (st, piece)
  | v :: rest =>
    if pyEmpty (pyStrip v) then foldPredefVals resolver st piece rest
    else
      match resolver st (pyStrip v) with
      | (st1, none) => foldPredefVals resolver st1 piece rest
      | (st1, some terr) =>
        foldPredefVals resolver st1
          (some (match piece with | none => terr | some p => .union p terr)) rest

mutual
/-- The main loop of `eval_territory_parts`: evaluate each part to a
`piece`, skip `None` pieces, and fold the rest into the accumulator
`out` using the part's `op` tag (`"union"` by default).  The resolver may
carry state `σ` (inside `materialize_library_namespace` it mutates a memo
cache); pure callers use `σ := Unit`. -/
def evalTerritoryPartsGo {σ : Type} (resolver : σ → String → σ × Option Geometry)
    (st : σ) (out : Option Geometry) : TerrParts → σ × Option Geometry
  | .nil => (st, out)
  | .cons part rest =>
    match evalTerritoryPiece resolver st part with
    | (st1, none) => evalTerritoryPartsGo resolver st1 out rest
    | (st1, some pc) =>
      let newOut : Geometry :=
        match out with
        | none => pc
        | some o =>
          if part.getOp == "difference" then .difference o pc
          else if part.getOp == "intersection" then .intersection o pc
          else .union o pc
      evalTerritoryPartsGo resolver st1 (some newOut) rest
/-- Evaluation of one part into a `piece` (the `ptype` dispatch inside
`eval_territory_parts`).  A single-value `"polygon"` leaf builds the
provider polygon; a list-valued one makes the provider call fail, which
the code swallows into `piece = None`. -/
def evalTerritoryPiece {σ : Type} (resolver : σ → String → σ × Option Geometry)
    (st : σ) : TerrPart → σ × Option Geometry
  | .group _ ps => evalTerritoryPartsGo resolver st none ps
  | .leafS t _ v =>
    if t == "gadm" then (st, foldGadmVals none [v])
    else if t == "polygon" then (st, some (.polygon v))
    else if t == "predefined" then foldPredefVals resolver st none [v]
    else (st, none)
  | .leafL t _ vs =>
    if t == "gadm" then (st, foldGadmVals none vs)
    else if t == "predefined" then foldPredefVals resolver st none vs
    else (st, none)
end

/-- Model of `eval_territory_parts`. -/
def evalTerritoryParts {σ : Type} (resolver : σ → String → σ × Option Geometry)
    (st : σ) (parts : TerrParts) : σ × Option Geometry :=
  evalTerritoryPartsGo resolver st none parts

/-- A stateless resolver, as used by callers that resolve names through a
plain mapping. -/
def pureResolver (r : String → Option Geometry) : Unit → String → Unit × Option Geometry :=
  fun _ tok => ((), r tok)

/-- A transpiled `Flag` element (the `method == "Flag"` branch of
`sync_code_to_builder`, src/main.py:2243): kept only when the `value`
argument parses to a non-empty part list, otherwise the statement falls
back to a `RawScript` passthrough layer. -/
structure FlagElement where
  label : Option String
  value : TerrParts
deriving DecidableEq, Repr

/-- The `Flag` branch of `sync_code_to_builder`. -/
def transpileFlagStmt (label : Option String) (valueNode : PyExpr) : Option FlagElement :=
  match parseTerritoryExpr valueNode with
  | .nil => none
  | parts => some ⟨label, parts⟩

/-- Is a parts list one single multi-value leaf? -/
def isSingleMultiLeaf : TerrParts → Bool
  | .cons (.leafL _ _ _) .nil => true
  | _ => false

/-- The accumulator merge of `eval_territory_parts` for the `"union"`
tag: `out = piece if out is None else out | piece` (also the shape of
the per-value merge inside a leaf). -/
def optUnionG : Option Geometry → Option Geometry → Option Geometry
  | none, q => q
  | some o, none => some o
  | some o, some pc => some (.union o pc)

/-- The value loop of a multi-value `"gadm"`/`"predefined"` leaf,
started from an accumulator (generalizing the `piece = None` start in
`eval_territory_parts`). -/
def leafValsFold {σ : Type} (t : String) (resolver : σ → String → σ × Option Geometry)
    (st : σ) (piece : Option Geometry) (vs : List String) : σ × Option Geometry :=
  if t == "gadm" then (st, foldGadmVals piece vs)
  else foldPredefVals resolver st piece vs

/-! ### Library structs and `_dedupe_str_list` (src/main.py:2524) -/

/-- The parsed form of a territory-library artifact:
`{"territories": [{"name": ..., "parts": ...}], "index_names": [...]}`. -/
structure LibStruct where
  territories : List (String × TerrParts)
  indexNames : List String
deriving DecidableEq, Repr

/-- Loop of `_dedupe_str_list`, carrying the `seen` set. -/
def dedupeStrListGo (seen : List String) : List String → List String
  | [] => []
  | raw :: rest =>
    let value := pyStrip raw
    if pyEmpty value || value ∈ seen then dedupeStrListGo seen rest
    else value :: dedupeStrListGo (value :: seen) rest

/-- `_dedupe_str_list`: strip, drop empties, keep first occurrences. -/
def dedupeStrList (l : List String) : List String := dedupeStrListGo [] l

/-! ### `_territory_library_struct_to_code` (src/main.py:2707)

`json.dumps` of the identifier-like strings stored in these structs (no
quotes, control characters or non-ASCII) is plain quote-wrapping, and
the stored polygon value is itself a `json.dumps` output, for which
`json.dumps(json.loads(v)) = v`. -/

/-- `json.dumps` of a plain string. -/
def jsonDumpsStr (s : String) : String := "\"" ++ s ++ "\""

/-- `json.dumps` of a list of plain strings. -/
def jsonDumpsStrList (l : List String) : String :=
  "[" ++ String.intercalate ", " (l.map jsonDumpsStr) ++ "]"

mutual
/-- `_territory_value_expr(part_type, value)`: the source text of one
operand.  Multi-value leaves are joined with `" | "` and — exactly as in
the source — are *not* parenthesized. -/
def territoryValueExpr : TerrPart → Option String
  | .leafS t _ v =>
    if t == "gadm" then
      if pyEmpty (pyStrip v) then none else some ("gadm(" ++ jsonDumpsStr v ++ ")")
    else if t == "predefined" then
      if pyEmpty (pyStrip v) then none else some (pyStrip v)
    else if t == "polygon" then some ("polygon(" ++ v ++ ")")
    else none
  | .leafL t _ vs =>
    if t == "gadm" then
      let terms := (vs.filter (fun v => !pyEmpty (pyStrip v))).map
        (fun v => "gadm(" ++ jsonDumpsStr v ++ ")")
      if terms.isEmpty then none else some (String.intercalate " | " terms)
    else if t == "predefined" then
      let terms := (vs.filter (fun v => !pyEmpty (pyStrip v))).map pyStrip
      if terms.isEmpty then none else some (String.intercalate " | " terms)
    else if t == "polygon" then some ("polygon(" ++ jsonDumpsStrList vs ++ ")")
    else none
  | .group _ ps =>
    let inner := territoryPartsToExprGo "" true ps
    if pyEmpty inner then none else some ("(" ++ inner ++ ")")
/-- Loop of `_territory_parts_to_expr`: join the operand texts with the
token of each part's `op` tag. -/
def territoryPartsToExprGo (expr : String) (first : Bool) : TerrParts → String
  | .nil => expr
  | .cons p rest =>
    match territoryValueExpr p with
    | none => territoryPartsToExprGo expr first rest
    | some term =>
      if first then territoryPartsToExprGo term false rest
      else
        let op := p.getOp
        let token := if op == "union" then "|" else if op == "difference" then "-" else "&"
        territoryPartsToExprGo (expr ++ " " ++ token ++ " " ++ term) false rest
end

/-- `_territory_parts_to_expr`. -/
def territoryPartsToExpr (parts : TerrParts) : String :=
  territoryPartsToExprGo "" true parts

/-- `_territory_library_struct_to_code`: one `name = expr` line per
definition, followed by the `__TERRITORY_INDEX__` line. -/
def territoryLibraryStructToCode (struct : LibStruct) : String :=
  let defLines := struct.territories.filterMap (fun nt =>
    if pyEmpty nt.1 || pyStartsWith nt.1 '_' then none
    else
      let expr := territoryPartsToExpr nt.2
      if pyEmpty expr then none
      else some (nt.1 ++ " = " ++ expr))
  let lines := defLines ++
    ["__TERRITORY_INDEX__ = " ++ jsonDumpsStrList (dedupeStrList struct.indexNames)]
  if lines.isEmpty then "" else String.intercalate "\n" lines ++ "\n"

/-! ### `_parse_territory_library_code_to_struct` (src/main.py:2594)

The source calls `ast.parse` on the module text and walks the
assignments.  The model below implements Python's tokenisation and
expression grammar for the fragment such library modules are written in
(identifiers, `gadm`/`polygon` calls, string/number/list literals,
parentheses, and the left-associative operators `|`, `&`, `-` with
Python's precedence `-` over `&` over `|`).  A module outside the
fragment is treated like an `ast.parse` failure (empty struct). -/

/-- Tokens of the modelled module fragment. -/
inductive CodeTok where
  | tokIdent (s : String)
  | tokStr (s : String)
  | tokNum (raw : String)
  | tokLP
  | tokRP
  | tokLB
  | tokRB
  | tokComma
  | tokBar
  | tokMinus
  | tokAmp
  | tokEq
deriving DecidableEq, Repr

/-- Characters that continue an identifier token (dotted names are read
as one token and split later, mirroring `Attribute` chains). -/
def isIdentChar (c : Char) : Bool := c.isAlphanum || c == '_' || c == '.'

/-- Characters that continue a number token. -/
def isNumChar (c : Char) : Bool := c.isDigit || c == '.'

/-- Tokenizer for one source line (fuel-indexed; each step consumes at
least one character, so `cs.length + 1` fuel always suffices). -/
def tokenizeLine (fuel : Nat) (cs : List Char) : Option (List CodeTok) :=
  match fuel with
  | 0 => none
  | fuel + 1 =>
    match cs with
    | [] => some []
    | c :: rest =>
      if pyWS c then tokenizeLine fuel rest
      else if c == '(' then (tokenizeLine fuel rest).map (fun ts => .tokLP :: ts)
      else if c == ')' then (tokenizeLine fuel rest).map (fun ts => .tokRP :: ts)
      else if c == '[' then (tokenizeLine fuel rest).map (fun ts => .tokLB :: ts)
      else if c == ']' then (tokenizeLine fuel rest).map (fun ts => .tokRB :: ts)
      else if c == ',' then (tokenizeLine fuel rest).map (fun ts => .tokComma :: ts)
      else if c == '|' then (tokenizeLine fuel rest).map (fun ts => .tokBar :: ts)
      else if c == '-' then (tokenizeLine fuel rest).map (fun ts => .tokMinus :: ts)
      else if c == '&' then (tokenizeLine fuel rest).map (fun ts => .tokAmp :: ts)
      else if c == '=' then (tokenizeLine fuel rest).map (fun ts => .tokEq :: ts)
      else if c == '"' then
        let content := rest.takeWhile (fun ch => ch != '"')
        match rest.drop content.length with
        | '"' :: rest2 => (tokenizeLine fuel rest2).map (fun ts => .tokStr ⟨content⟩ :: ts)
        | _ => none
      else if c.isDigit then
        let content := cs.takeWhile isNumChar
        (tokenizeLine fuel (cs.drop content.length)).map (fun ts => .tokNum ⟨content⟩ :: ts)
      else if isIdentChar c then
        let content := cs.takeWhile isIdentChar
        (tokenizeLine fuel (cs.drop content.length)).map (fun ts => .tokIdent ⟨content⟩ :: ts)
      else none

mutual
/-- Canonical `json.dumps` text of a JSON literal read from the token
stream (strings, numbers, optionally negated, and nested lists), as used
for `polygon(...)` arguments: `_python_value` then `json.dumps`. -/
def parseJsonLiteralToks (fuel : Nat) (toks : List CodeTok) : Option (String × List CodeTok) :=
  match fuel with
  | 0 => none
  | fuel + 1 =>
    match toks with
    | .tokStr s :: rest => some (jsonDumpsStr s, rest)
    | .tokNum raw :: rest => some (raw, rest)
    | .tokMinus :: .tokNum raw :: rest => some ("-" ++ raw, rest)
    | .tokLB :: .tokRB :: rest => some ("[]", rest)
    | .tokLB :: rest =>
      match parseJsonItemsToks fuel rest with
      | some (items, .tokRB :: rest2) =>
        some ("[" ++ String.intercalate ", " items ++ "]", rest2)
      | _ => none
    | _ => none

/-- Comma-separated JSON items. -/
def parseJsonItemsToks (fuel : Nat) (toks : List CodeTok) : Option (List String × List CodeTok) :=
  match fuel with
  | 0 => none
  | fuel + 1 =>
    match parseJsonLiteralToks fuel toks with
    | none => none
    | some (item, rest) =>
      match rest with
      | .tokComma :: rest2 =>
        match parseJsonItemsToks fuel rest2 with
        | some (items, rest3) => some (item :: items, rest3)
        | none => none
      | _ => some ([item], rest)
end

/-- Skip a balanced `( ... )` token run (used for calls the operand
recogniser does not model; they become `otherExpr`, which
`_parse_territory_operand` maps to `None`). -/
def skipBalancedToks (fuel : Nat) (depth : Nat) (toks : List CodeTok) : Option (List CodeTok) :=
  match fuel with
  | 0 => none
  | fuel + 1 =>
    match toks with
    | [] => none
    | .tokLP :: rest => skipBalancedToks fuel (depth + 1) rest
    | .tokRP :: rest => if depth == 1 then some rest else skipBalancedToks fuel (depth - 1) rest
    | _ :: rest => skipBalancedToks fuel depth rest

mutual
/-- Atom of the expression grammar: parenthesized sub-expression,
`gadm`/`polygon` call, other call (→ `otherExpr`), literal
(→ `otherExpr`), or (dotted) identifier. -/
def parseAtomToks (fuel : Nat) (toks : List CodeTok) : Option (PyExpr × List CodeTok) :=
  match fuel with
  | 0 => none
  | fuel + 1 =>
    match toks with
    | .tokLP :: rest =>
      match parseOrToks fuel rest with
      | some (e, .tokRP :: rest2) => some (e, rest2)
      | _ => none
    | .tokIdent s :: .tokLP :: rest =>
      if s == "gadm" then
        match rest with
        | .tokStr v :: .tokRP :: rest2 => some (.callGadm v, rest2)
        | _ =>
          match skipBalancedToks fuel 1 rest with
          | some rest2 => some (.otherExpr, rest2)
          | none => none
      else if s == "polygon" then
        match parseJsonLiteralToks fuel rest with
        | some (j, .tokRP :: rest2) => some (.callPolygon j, rest2)
        | _ =>
          match skipBalancedToks fuel 1 rest with
          | some rest2 => some (.otherExpr, rest2)
          | none => none
      else
        match skipBalancedToks fuel 1 rest with
        | some rest2 => some (.otherExpr, rest2)
        | none => none
    | .tokIdent s :: rest =>
      match splitStringOn '.' s with
      | [n] => some (.name n, rest)
      | [b, a] => some (.attr b a, rest)
      | _ => some (.otherExpr, rest)
    | .tokStr _ :: rest => some (.otherExpr, rest)
    | .tokNum _ :: rest => some (.otherExpr, rest)
    | .tokLB :: rest =>
      match parseJsonItemsToks fuel rest with
      | some (_, .tokRB :: rest2) => some (.otherExpr, rest2)
      | _ => none
    | _ => none
/-- `-` level (binary subtraction, tightest of the three). -/
def parseArithToks (fuel : Nat) (toks : List CodeTok) : Option (PyExpr × List CodeTok) :=
  match fuel with
  | 0 => none
  | fuel + 1 =>
    match parseAtomToks fuel toks with
    | none => none
    | some (e, rest) => parseArithRest fuel e rest
def parseArithRest (fuel : Nat) (acc : PyExpr) (toks : List CodeTok) :
    Option (PyExpr × List CodeTok) :=
  match fuel with
  | 0 => none
  | fuel + 1 =>
    match toks with
    | .tokMinus :: rest =>
      match parseAtomToks fuel rest with
      | some (e, rest2) => parseArithRest fuel (.binop .sub acc e) rest2
      | none => none
    | _ => some (acc, toks)
/-- `&` level. -/
def parseAndToks (fuel : Nat) (toks : List CodeTok) : Option (PyExpr × List CodeTok) :=
  match fuel with
  | 0 => none
  | fuel + 1 =>
    match parseArithToks fuel toks with
    | none => none
    | some (e, rest) => parseAndRest fuel e rest
def parseAndRest (fuel : Nat) (acc : PyExpr) (toks : List CodeTok) :
    Option (PyExpr × List CodeTok) :=
  match fuel with
  | 0 => none
  | fuel + 1 =>
    match toks with
    | .tokAmp :: rest =>
      match parseArithToks fuel rest with
      | some (e, rest2) => parseAndRest fuel (.binop .bitand acc e) rest2
      | none => none
    | _ => some (acc, toks)
/-- `|` level (loosest). -/
def parseOrToks (fuel : Nat) (toks : List CodeTok) : Option (PyExpr × List CodeTok) :=
  match fuel with
  | 0 => none
  | fuel + 1 =>
    match parseAndToks fuel toks with
    | none => none
    | some (e, rest) => parseOrRest fuel e rest
def parseOrRest (fuel : Nat) (acc : PyExpr) (toks : List CodeTok) :
    Option (PyExpr × List CodeTok) :=
  match fuel with
  | 0 => none
  | fuel + 1 =>
    match toks with
    | .tokBar :: rest =>
      match parseAndToks fuel rest with
      | some (e, rest2) => parseOrRest fuel (.binop .bitor acc e) rest2
      | none => none
    | _ => some (acc, toks)
end

/-- One parsed module statement: a plain assignment or the
`__TERRITORY_INDEX__` assignment with a list-of-strings literal. -/
inductive LineStmt where
  | assignExpr (name : String) (value : PyExpr)
  | assignIndex (names : List String)
  | skipLine
deriving DecidableEq, Repr

/-- Items of a list-of-strings literal. -/
def parseStrListItemsToks (acc : List String) : List CodeTok → Option (List String)
  | [.tokStr s, .tokRB] => some (acc ++ [s])
  | .tokStr s :: .tokComma :: rest2 => parseStrListItemsToks (acc ++ [s]) rest2
  | _ => none

/-- `ast.literal_eval` of a list-of-strings literal, from tokens. -/
def parseStrListToks (toks : List CodeTok) : Option (List String) :=
  match toks with
  | [.tokLB, .tokRB] => some []
  | .tokLB :: rest => parseStrListItemsToks [] rest
  | _ => none

/-- Parse one line of the module.  A blank line is skipped; an
`__TERRITORY_INDEX__` line whose right side is not a list-of-strings
literal is a valid assignment whose `literal_eval` fails, so it is
skipped; any other shape outside the fragment fails the module parse. -/
def parseModuleLine (line : String) : Option LineStmt :=
  match tokenizeLine (line.data.length + 1) line.data with
  | none => none
  | some [] => some .skipLine
  | some (.tokIdent n :: .tokEq :: rest) =>
    if n == "__TERRITORY_INDEX__" then
      match parseStrListToks rest with
      | some names => some (.assignIndex names)
      | none => some .skipLine
    else
      match parseOrToks (rest.length + 1) rest with
      | some (e, []) => some (.assignExpr n e)
      | _ => none
  | some _ => none

/-- Parse every line of the module (an `ast.parse` failure anywhere
fails the whole module). -/
def parseModuleLines : List String → Option (List LineStmt)
  | [] => some []
  | line :: rest =>
    match parseModuleLine line with
    | none => none
    | some stmt =>
      match parseModuleLines rest with
      | none => none
      | some stmts => some (stmt :: stmts)

/-- The statement loop of `_parse_territory_library_code_to_struct`:
first assignment per name wins, underscore names are skipped, and empty
part lists are dropped. -/
def buildStructGo (seen : List String) (territories : List (String × TerrParts))
    (indexNames : List String) : List LineStmt → List (String × TerrParts) × List String
  | [] => (territories, indexNames)
  | .skipLine :: rest => buildStructGo seen territories indexNames rest
  | .assignIndex names :: rest =>
    buildStructGo seen territories (dedupeStrList names) rest
  | .assignExpr n e :: rest =>
    if pyEmpty n || pyStartsWith n '_' || n ∈ seen then
      buildStructGo seen territories indexNames rest
    else
      match parseTerritoryExpr e with
      | .nil => buildStructGo seen territories indexNames rest
      | parts => buildStructGo (n :: seen) (territories ++ [(n, parts)]) indexNames rest

/-- Model of `_parse_territory_library_code_to_struct`. -/
def parseTerritoryLibraryCodeToStruct (code : String) : LibStruct :=
  if pyEmpty (pyStrip code) then ⟨[], []⟩
  else
    match parseModuleLines (splitStringOn '\n' code) with
    | none => ⟨[], []⟩
    | some stmts =>
      let (territories, indexNames) := buildStructGo [] [] [] stmts
      let validNames := territories.map Prod.fst
      ⟨territories,
        if indexNames.isEmpty then validNames
        else indexNames.filter (fun n => n ∈ validNames)⟩

/-! ### `materialize_library_namespace` (src/main.py:4715)

The resolver keeps a memo `cache` (a Python dict, which also records
`None` results) and a `visiting` set; a name already on `visiting` is a
self-cycle and resolves to `None`.  The recursion terminates because
every descent moves one definition name onto `visiting`; the measure
below counts the names not yet visited. -/

/-- Python dict assignment on an association list: update in place or
append. -/
def upsertAssoc {α : Type} (l : List (String × α)) (k : String) (v : α) :
    List (String × α) :=
  if l.any (fun kv => kv.1 == k) then
    l.map (fun kv => if kv.1 == k then (k, v) else kv)
  else l ++ [(k, v)]

/-- The `definitions` dict built at the top of
`materialize_library_namespace` (later assignment wins). -/
def buildLibDefinitions (territories : List (String × TerrParts)) :
    List (String × TerrParts) :=
  territories.foldl
    (fun acc nt =>
      if pyEmpty nt.1 || pyStartsWith nt.1 '_' then acc
      else upsertAssoc acc nt.1 nt.2)
    []

/-- Definition names not yet on the visiting set: the primary
termination measure of the resolver. -/
def unvisitedDefCount (defNames : List String) (visiting : List String) : Nat :=
  (defNames.toFinset \ visiting.toFinset).card

mutual
/-- Structural weight of one part (secondary termination measure). -/
def TerrPart.weight : TerrPart → Nat
  | .leafS _ _ _ => 3
  | .leafL _ _ vs => vs.length + 2
  | .group _ ps => TerrParts.weight ps + 2
/-- Structural weight of a part list. -/
def TerrParts.weight : TerrParts → Nat
  | .nil => 0
  | .cons p tl => TerrPart.weight p + 1 + TerrParts.weight tl
end

mutual
/-- The `_resolver` closure of `materialize_library_namespace`: dotted
names go to the external scope, then the memo cache, then the cycle
guard, then the local definitions, then the bare external scope, then
the built-in library. -/
def libResolver (defs : List (String × TerrParts))
    (dotted bare builtin : String → Option Geometry) (includeBuiltin : Bool)
    (visiting : List String) (cache : List (String × Option Geometry))
    (token : String) : List (String × Option Geometry) × Option Geometry :=
  if token.data.contains '.' then (cache, dotted token)
  else
    match cache.find? (fun kv => kv.1 == token) with
    | some kv => (cache, kv.2)
    | none =>
      if hv : token ∈ visiting then (cache, none)
      else
        match hfind : defs.find? (fun kv => kv.1 == token) with
        | some kv =>
          let res := libEvalParts defs dotted bare builtin includeBuiltin
            (token :: visiting) cache none kv.2
          (upsertAssoc res.1 token res.2, res.2)
        | none =>
          match bare token with
          | some g => (cache, some g)
          | none => if includeBuiltin then (cache, builtin token) else (cache, none)
termination_by (unvisitedDefCount (defs.map Prod.fst) visiting, 0)
decreasing_by
  apply Prod.Lex.left
  simp only [unvisitedDefCount]
  have hkv := List.find?_some hfind
  have hmem := List.mem_of_find?_eq_some hfind
  have hkey : kv.1 = token := by simpa using hkv
  have htok : token ∈ defs.map Prod.fst := hkey ▸ List.mem_map_of_mem Prod.fst hmem
  apply Finset.card_lt_card
  constructor
  · intro x hx
    simp only [Finset.mem_sdiff, List.mem_toFinset] at hx ⊢
    exact ⟨hx.1, fun hvv => hx.2 (by simp [hvv])⟩
  · intro hsub
    have hin : token ∈ (defs.map Prod.fst).toFinset \ visiting.toFinset := by
      simp only [Finset.mem_sdiff, List.mem_toFinset]
      exact ⟨htok, hv⟩
    have := hsub hin
    simp at this
/-- `eval_territory_parts` as instantiated inside
`materialize_library_namespace` (its resolver is `_resolver` itself,
threading the memo cache). -/
def libEvalParts (defs : List (String × TerrParts))
    (dotted bare builtin : String → Option Geometry) (includeBuiltin : Bool)
    (visiting : List String) (cache : List (String × Option Geometry))
    (out : Option Geometry) :
    TerrParts → List (String × Option Geometry) × Option Geometry
  | .nil => (cache, out)
  | .cons part rest =>
    match libEvalPiece defs dotted bare builtin includeBuiltin visiting cache part with
    | (cache1, none) =>
      libEvalParts defs dotted bare builtin includeBuiltin visiting cache1 out rest
    | (cache1, some pc) =>
      let newOut : Geometry :=
        match out with
        | none => pc
        | some o =>
          if part.getOp == "difference" then .difference o pc
          else if part.getOp == "intersection" then .intersection o pc
          else .union o pc
      libEvalParts defs dotted bare builtin includeBuiltin visiting cache1 (some newOut) rest
termination_by parts => (unvisitedDefCount (defs.map Prod.fst) visiting, TerrParts.weight parts + 1)
decreasing_by
  all_goals apply Prod.Lex.right
  all_goals simp [TerrParts.weight, TerrPart.weight]
  all_goals omega
/-- One part evaluated to a piece, inside
`materialize_library_namespace`. -/
def libEvalPiece (defs : List (String × TerrParts))
    (dotted bare builtin : String → Option Geometry) (includeBuiltin : Bool)
    (visiting : List String) (cache : List (String × Option Geometry)) :
    TerrPart → List (String × Option Geometry) × Option Geometry
  | .group _ ps => libEvalParts defs dotted bare builtin includeBuiltin visiting cache none ps
  | .leafS t _ v =>
    if t == "gadm" then (cache, foldGadmVals none [v])
    else if t == "polygon" then (cache, some (.polygon v))
    else if t == "predefined" then
      libFoldPredef defs dotted bare builtin includeBuiltin visiting cache none [v]
    else (cache, none)
  | .leafL t _ vs =>
    if t == "gadm" then (cache, foldGadmVals none vs)
    else if t == "predefined" then
      libFoldPredef defs dotted bare builtin includeBuiltin visiting cache none vs
    else (cache, none)
termination_by part => (unvisitedDefCount (defs.map Prod.fst) visiting, TerrPart.weight part)
decreasing_by
  all_goals apply Prod.Lex.right
  all_goals simp [TerrParts.weight, TerrPart.weight, List.length]
  all_goals omega
/-- The `"predefined"` value loop, resolving each stripped name through
`_resolver`. -/
def libFoldPredef (defs : List (String × TerrParts))
    (dotted bare builtin : String → Option Geometry) (includeBuiltin : Bool)
    (visiting : List String) (cache : List (String × Option Geometry))
    (piece : Option Geometry) :
    List String → List (String × Option Geometry) × Option Geometry
  | [] => (cache, piece)
  | v :: rest =>
    if pyEmpty (pyStrip v) then
      libFoldPredef defs dotted bare builtin includeBuiltin visiting cache piece rest
    else
      match libResolver defs dotted bare builtin includeBuiltin visiting cache (pyStrip v) with
      | (cache1, none) =>
        libFoldPredef defs dotted bare builtin includeBuiltin visiting cache1 piece rest
      | (cache1, some terr) =>
        libFoldPredef defs dotted bare builtin includeBuiltin visiting cache1
          (some (match piece with | none => terr | some p => .union p terr)) rest
termination_by vals => (unvisitedDefCount (defs.map Prod.fst) visiting, vals.length + 1)
decreasing_by
  all_goals first
    | (apply Prod.Lex.right; simp [List.length]; omega)
    | (apply Prod.Lex.right; simp [List.length])
end

/-- The final loop of `materialize_library_namespace`:
`for name in definitions.keys(): _resolver(name)`, threading the memo
cache. -/
def materializeGo (defs : List (String × TerrParts))
    (dotted bare builtin : String → Option Geometry) (includeBuiltin : Bool)
    (cache : List (String × Option Geometry)) :
    List String → List (String × Option Geometry)
  | [] => cache
  | n :: rest =>
    materializeGo defs dotted bare builtin includeBuiltin
      (libResolver defs dotted bare builtin includeBuiltin [] cache n).1 rest

/-- Model of `materialize_library_namespace`: the returned payload (the
namespace field map) keeps only the names that resolved to a geometry. -/
def materializeLibraryNamespace (struct : LibStruct)
    (dotted bare builtin : String → Option Geometry) (includeBuiltin : Bool) :
    List (String × Geometry) :=
  let defs := buildLibDefinitions struct.territories
  let cache := materializeGo defs dotted bare builtin includeBuiltin [] (defs.map Prod.fst)
  cache.filterMap (fun kv => kv.2.map (fun g => (kv.1, g)))

/-! ### The `xatrahub` import closure (src/main.py:4980)

The cross-artifact cycle guard: a global active-import set keyed by the
loaded artifact; a key already on the set short-circuits that import to
an empty result.  For a map-kind artifact the closure first resolves the
artifact's own imports, then appends its filtered elements to the
caller's pending-import queue.  The model keys the store by the
normalized import path and carries the pending queue as state. -/

/-- A hub artifact as seen by the import resolver; `elements` stands for
the filtered element payload a map-kind artifact contributes. -/
inductive HubArtifact where
  | mapArt (importsPaths : List String) (elements : List String)
deriving DecidableEq, Repr

mutual
/-- One `xatrahub(path)` call: load, check the active set, recurse into
the artifact's imports, then extend the pending queue with the
artifact's own elements. -/
def xatrahubResolve (store : List (String × HubArtifact)) (active : List String)
    (pending : List String) (path : String) : List String :=
  match hfind : store.find? (fun kv => kv.1 == path) with
  | none => pending
  | some kv =>
    match kv.2 with
    | .mapArt importsPaths elements =>
      if hp : path ∈ active then pending
      else
        let pending1 := xatrahubImports store (path :: active) pending importsPaths
        pending1 ++ elements
termination_by (unvisitedDefCount (store.map Prod.fst) active, 0)
decreasing_by
  apply Prod.Lex.left
  simp only [unvisitedDefCount]
  have hkv := List.find?_some hfind
  have hmem := List.mem_of_find?_eq_some hfind
  have hkey : kv.1 = path := by simpa using hkv
  have htok : path ∈ store.map Prod.fst := hkey ▸ List.mem_map_of_mem Prod.fst hmem
  apply Finset.card_lt_card
  constructor
  · intro x hx
    simp only [Finset.mem_sdiff, List.mem_toFinset] at hx ⊢
    exact ⟨hx.1, fun hvv => hx.2 (by simp [hvv])⟩
  · intro hsub
    have hin : path ∈ (store.map Prod.fst).toFinset \ active.toFinset := by
      simp only [Finset.mem_sdiff, List.mem_toFinset]
      exact ⟨htok, hp⟩
    have := hsub hin
    simp at this
/-- `apply_imports_code_parsed`: resolve each import in order. -/
def xatrahubImports (store : List (String × HubArtifact)) (active : List String)
    (pending : List String) : List String → List String
  | [] => pending
  | p :: rest =>
    xatrahubImports store active (xatrahubResolve store active pending p) rest
termination_by paths => (unvisitedDefCount (store.map Prod.fst) active, paths.length + 1)
decreasing_by
  all_goals apply Prod.Lex.right
  all_goals simp [List.length]
end

/-! ### Builder payload values and `_sanitize_untrusted_builder_payload`
(src/main.py:4542, 4551)

Builder payloads are JSON values; `{"__xatra_python__": "<code>"}`
objects are the raw-expression wrappers that `_strip_python_wrappers`
replaces by their source text. -/

mutual
inductive JVal where
  | jnull
  | jbool (b : Bool)
  | jnum (n : Int)
  | jstr (s : String)
  | jlist (items : JList)
  | jobj (fields : JObj)
deriving DecidableEq, Repr
inductive JList where
  | nil
  | cons (v : JVal) (tl : JList)
deriving DecidableEq, Repr
inductive JObj where
  | nil
  | cons (k : String) (v : JVal) (tl : JObj)
deriving DecidableEq, Repr
end

/-- `PYTHON_EXPR_KEY` (src/main.py:1730). -/
def pythonExprKey : String := "__xatra_python__"

/-- `d.get(k)` on an object (Python `None` for a missing key). -/
def JObj.get : JObj → String → JVal
  | .nil, _ => .jnull
  | .cons k v tl, key => if k == key then v else tl.get key

/-- `k in d` on an object. -/
def JObj.hasKey : JObj → String → Bool
  | .nil, _ => false
  | .cons k _ tl, key => k == key || tl.hasKey key

/-- `d[k] = v` on an object (update in place, else append). -/
def JObj.set : JObj → String → JVal → JObj
  | .nil, key, v => .cons key v .nil
  | .cons k w tl, key, v =>
    if k == key then .cons k v tl else .cons k w (tl.set key v)

/-- `str(x)` as applied to the `"type"` field of an icon; only its
comparison against `"url"` matters, so non-strings use a fixed
representative of their Python `str()` text. -/
def jvalPyStr : JVal → String
  | .jstr s => s
  | .jnull => "None"
  | .jbool b => if b then "True" else "False"
  | .jnum n => toString n
  | .jlist _ => "[...]"
  | .jobj _ => "{...}"

mutual
/-- `_strip_python_wrappers` (src/main.py:4532): a single-entry dict
`{PYTHON_EXPR_KEY: <str>}` becomes that string; other containers are
rebuilt recursively. -/
def stripPythonWrappers : JVal → JVal
  | .jobj (.cons k (.jstr s) .nil) =>
    if k == pythonExprKey then .jstr s
    else .jobj (.cons k (.jstr s) .nil)
  | .jobj fields => .jobj (stripPythonWrappersObj fields)
  | .jlist items => .jlist (stripPythonWrappersList items)
  | v => v
/-- `_strip_python_wrappers` over a list. -/
def stripPythonWrappersList : JList → JList
  | .nil => .nil
  | .cons v tl => .cons (stripPythonWrappers v) (stripPythonWrappersList tl)
/-- `_strip_python_wrappers` over the values of an object. -/
def stripPythonWrappersObj : JObj → JObj
  | .nil => .nil
  | .cons k v tl => .cons k (stripPythonWrappers v) (stripPythonWrappersObj tl)
end

/-- A builder element dictionary: `{"type", "label", "value", "args"}`
(missing keys read as `None`/`jnull`). -/
structure BElement where
  etype : String
  label : JVal
  value : JVal
  args : JVal
deriving DecidableEq, Repr

/-- `str(item.get("type", "")).strip().lower()`. -/
def elementTypeLower (e : BElement) : String := pyLower (pyStrip e.etype)

/-- `_sanitize_untrusted_point_icon`: a dict icon whose `type` is
`"url"` or that carries an `icon_url`/`iconUrl` key becomes `None`. -/
def sanitizeUntrustedPointIcon (icon : JVal) : JVal :=
  match icon with
  | .jobj fields =>
    let iconType := pyLower (pyStrip (jvalPyStr (fields.get "type")))
    if iconType == "url" || fields.hasKey "icon_url" || fields.hasKey "iconUrl" then .jnull
    else icon
  | _ => icon

/-- Is the value a dict? (`isinstance(x, dict)`). -/
def JVal.isObj : JVal → Bool
  | .jobj _ => true
  | _ => false

/-- The per-element body of `_sanitize_untrusted_builder_payload` (the
dict branch): strip wrappers from `value`, `args` and `label`, replace a
non-dict `args` by `{}`, and sanitize the icon of point elements. -/
def sanitizeElementDict (e : BElement) : BElement :=
  let itemType := elementTypeLower e
  let value := stripPythonWrappers e.value
  let args0 := stripPythonWrappers (if e.args.isObj then e.args else .jobj .nil)
  let args :=
    match args0 with
    | .jobj fields =>
      if itemType == "point" then
        .jobj (fields.set "icon" (sanitizeUntrustedPointIcon (fields.get "icon")))
      else .jobj fields
    | other => other
  { etype := e.etype, label := stripPythonWrappers e.label, value := value, args := args }

/-- The element loop of `_sanitize_untrusted_builder_payload`:
`"python"`-typed elements are dropped, all others sanitized. -/
def sanitizeElementsLoop : List BElement → List BElement
  | [] => []
  | e :: rest =>
    if elementTypeLower e == "python" then sanitizeElementsLoop rest
    else sanitizeElementDict e :: sanitizeElementsLoop rest

/-- Model of `_sanitize_untrusted_builder_payload`. -/
def sanitizeUntrustedBuilderPayload (elements : List BElement) (options : JVal) :
    List BElement × JVal :=
  let safeElements := sanitizeElementsLoop elements
  let safeOptions := stripPythonWrappers (if options.isObj then options else .jobj .nil)
  (safeElements, if safeOptions.isObj then safeOptions else .jobj .nil)

/-- Is the object a raw-expression wrapper
(`len(d) == 1 and isinstance(d.get(PYTHON_EXPR_KEY), str)`)? -/
def isWrapperObj : JObj → Bool
  | .cons k (.jstr _) .nil => k == pythonExprKey
  | _ => false

mutual
/-- No raw-expression wrapper occurs anywhere inside the value. -/
def wrapperFree : JVal → Bool
  | .jobj fields => !(isWrapperObj fields) && wrapperFreeObj fields
  | .jlist items => wrapperFreeList items
  | _ => true
/-- `wrapperFree` over a list. -/
def wrapperFreeList : JList → Bool
  | .nil => true
  | .cons v tl => wrapperFree v && wrapperFreeList tl
/-- `wrapperFree` over object values. -/
def wrapperFreeObj : JObj → Bool
  | .nil => true
  | .cons _ v tl => wrapperFree v && wrapperFreeObj tl
end

/-- Does the element's `label`/`value`/`args` contain no raw-expression
wrappers? -/
def elementWrapperFree (e : BElement) : Bool :=
  wrapperFree e.label && wrapperFree e.value && wrapperFree e.args

/-- Claim C8 as stated: sanitizing an untrusted payload that contains a
`RawScript` (`"python"`) element and a URL-icon point leaves zero
`"python"` elements, nulls the icon, and preserves every other element
unchanged. -/
def untrustedSanitizationClaim : Prop :=
  ∀ (elements : List BElement) (options : JVal),
    (∃ e ∈ elements, elementTypeLower e = "python") →
    (∃ p ∈ elements, elementTypeLower p = "point" ∧
      ∃ fields icf, p.args = JVal.jobj fields ∧ fields.get "icon" = JVal.jobj icf ∧
        pyLower (pyStrip (jvalPyStr (icf.get "type"))) = "url") →
    (∀ e ∈ (sanitizeUntrustedBuilderPayload elements options).1,
        elementTypeLower e ≠ "python") ∧
    ∀ e ∈ elements, elementTypeLower e ≠ "python" → elementTypeLower e ≠ "point" →
      e ∈ (sanitizeUntrustedBuilderPayload elements options).1

/-! ### The render submission pipeline as an event sequence
(src/main.py:5860 `run_in_process`, src/main.py:4584
`run_rendering_task`)

The order in which a builder-task submission performs its steps, read
off the two functions: `run_in_process` computes the cache key, probes
the cache, atomically terminates the slot's previous occupant, registers
and starts the worker process, and only then the worker — running
`run_rendering_task` — sanitizes the payload of a non-elevated actor
before applying options and elements and posting its result. -/

inductive RenderEv where
  | computeCacheKey
  | cacheLookup
  | terminatePreviousOccupant
  | registerSlot
  | startWorkerProcess
  | workerSanitizePayload
  | workerApplyOptions
  | workerApplyElements
  | workerPutResult
  | awaitResult
  | terminateWorker
  | deregisterSlot
  | cacheStore
deriving DecidableEq, Repr

/-- The worker-side events of a builder render
(src/main.py:5243-5256 then the option/element application). -/
def builderWorkerEvents (trustedUser : Bool) : List RenderEv :=
  (if trustedUser then [] else [.workerSanitizePayload]) ++
    [.workerApplyOptions, .workerApplyElements, .workerPutResult]

/-- The submission-side events of `run_in_process` around a worker run
(the cache-miss path). -/
def runInProcessEvents (workerEvents : List RenderEv) : List RenderEv :=
  [.computeCacheKey, .cacheLookup, .terminatePreviousOccupant, .registerSlot,
    .startWorkerProcess] ++ workerEvents ++
    [.awaitResult, .terminateWorker, .deregisterSlot, .cacheStore]

/-- The full event sequence of one builder submission. -/
def builderSubmissionEvents (trustedUser : Bool) : List RenderEv :=
  runInProcessEvents (builderWorkerEvents trustedUser)

/-- The elements and options the worker's builder branch actually
applies (src/main.py:5244-5256). -/
def builderAppliedPayload (trustedUser : Bool) (elements : List BElement) (options : JVal) :
    List BElement × JVal :=
  if trustedUser then (elements, options)
  else sanitizeUntrustedBuilderPayload elements options

/-- Claim C2 as stated: for an untrusted builder submission, payload
sanitization happens before the job is scheduled into a worker. -/
def sanitizeBeforeSchedulingClaim : Prop :=
  (builderSubmissionEvents false).indexOf RenderEv.workerSanitizePayload <
    (builderSubmissionEvents false).indexOf RenderEv.startWorkerProcess

/-! ### The per-slot process table (src/main.py:5860, 5804)

A small-step model of two submissions `A` and `B` sharing one
`(actor, task_type)` slot.  Each job has a submitting thread running the
body of `run_in_process` and a worker process running
`run_rendering_task`.  Everything `run_in_process` does between taking
`process_lock` and releasing it (terminate-previous, register, start) is
one atomic step, exactly what the lock is there for; worker steps (put
result, exit) interleave freely.  `terminate()` is modelled as an
immediate hard kill; a killed or exited worker takes no further steps. -/

inductive JobId where
  | A
  | B
deriving DecidableEq, Repr

inductive ProcStatus where
  | notStarted
  | running
  | exited
  | killed
deriving DecidableEq, Repr

inductive ThreadPc where
  | submitPc
  | awaitPc
  | termPc
  | deregPc
  | cachePc
  | donePc
deriving DecidableEq, Repr

/-- Shared state: the slot entry of `current_processes`, both worker
statuses, both one-shot result queues (`some true` = a success payload),
both submitting-thread program counters and local results, and the
render-cache entries written (one key per job payload). -/
structure SlotState where
  slotOcc : Option JobId
  statA : ProcStatus
  statB : ProcStatus
  queueA : Option Bool
  queueB : Option Bool
  pcA : ThreadPc
  pcB : ThreadPc
  resA : Option Bool
  resB : Option Bool
  cache : List JobId
deriving DecidableEq, Repr

/-- Worker status of a job. -/
def SlotState.stat (s : SlotState) : JobId → ProcStatus
  | .A => s.statA
  | .B => s.statB

/-- Result queue of a job. -/
def SlotState.queue (s : SlotState) : JobId → Option Bool
  | .A => s.queueA
  | .B => s.queueB

/-- Thread program counter of a job. -/
def SlotState.pc (s : SlotState) : JobId → ThreadPc
  | .A => s.pcA
  | .B => s.pcB

/-- Thread-local result of a job. -/
def SlotState.res (s : SlotState) : JobId → Option Bool
  | .A => s.resA
  | .B => s.resB

/-- Set a worker status. -/
def SlotState.setStat (s : SlotState) : JobId → ProcStatus → SlotState
  | .A, st => { s with statA := st }
  | .B, st => { s with statB := st }

/-- Set a result queue. -/
def SlotState.setQueue (s : SlotState) : JobId → Option Bool → SlotState
  | .A, q => { s with queueA := q }
  | .B, q => { s with queueB := q }

/-- Set a thread program counter. -/
def SlotState.setPc (s : SlotState) : JobId → ThreadPc → SlotState
  | .A, p => { s with pcA := p }
  | .B, p => { s with pcB := p }

/-- Set a thread-local result. -/
def SlotState.setRes (s : SlotState) : JobId → Option Bool → SlotState
  | .A, r => { s with resA := r }
  | .B, r => { s with resB := r }

inductive SlotStep where
  | submit (j : JobId)
  | workerPut (j : JobId)
  | workerExit (j : JobId)
  | getResult (j : JobId)
  | awaitTimeout (j : JobId)
  | terminateOwn (j : JobId)
  | deregister (j : JobId)
  | cacheStore (j : JobId)
deriving DecidableEq, Repr

/-- The locked section of `run_in_process`: if the slot's occupant is
alive, hard-terminate it; then register and start the new worker. -/
def submitEffect (s : SlotState) (j : JobId) : SlotState :=
  let s1 :=
    match s.slotOcc with
    | some k => if s.stat k == ProcStatus.running then s.setStat k .killed else s
    | none => s
  (({ s1 with slotOcc := some j }).setStat j .running).setPc j .awaitPc

/-- One enabled step of the system, `none` when the step's guard fails.
`getResult` fires when the job's queue holds a message
(`queue.get` succeeds); `awaitTimeout` models the 60-second
`queue.get` timeout, possible whenever the queue is empty. -/
def slotStep (s : SlotState) : SlotStep → Option SlotState
  | .submit j =>
    if s.pc j == .submitPc && s.stat j == .notStarted then some (submitEffect s j)
    else none
  | .workerPut j =>
    if s.stat j == .running && s.queue j == none then some (s.setQueue j (some true))
    else none
  | .workerExit j =>
    if s.stat j == .running then some (s.setStat j .exited) else none
  | .getResult j =>
    match s.queue j with
    | some m =>
      if s.pc j == .awaitPc then
        some (((s.setRes j (some m)).setQueue j none).setPc j .termPc)
      else none
    | none => none
  | .awaitTimeout j =>
    if s.pc j == .awaitPc && s.queue j == none then
      some ((s.setRes j (some false)).setPc j .termPc)
    else none
  | .terminateOwn j =>
    if s.pc j == .termPc then
      some ((if s.stat j == .running then s.setStat j .killed else s).setPc j .deregPc)
    else none
  | .deregister j =>
    if s.pc j == .deregPc then
      some ((if s.slotOcc == some j then { s with slotOcc := none } else s).setPc j .cachePc)
    else none
  | .cacheStore j =>
    if s.pc j == .cachePc then
      some ((if s.res j == some true then { s with cache := s.cache ++ [j] } else s).setPc j .donePc)
    else none

/-- Both submissions pending, nothing started, cache empty for both
payload keys. -/
def initSlotState : SlotState :=
  ⟨none, .notStarted, .notStarted, none, none, .submitPc, .submitPc, none, none, []⟩

/-- Run a step list (fails when a step is not enabled). -/
def runSlotSteps (s : SlotState) : List SlotStep → Option SlotState
  | [] => some s
  | σ :: rest =>
    match slotStep s σ with
    | some s1 => runSlotSteps s1 rest
    | none => none

/-- Claim C1 as stated: once a submission for an occupied slot has
hard-terminated the running occupant `A`, job `A`'s result never newly
reaches the render cache nor its result channel. -/
def slotExclusivityClaim : Prop :=
  ∀ (steps1 : List SlotStep) (s1 s2 : SlotState),
    runSlotSteps initSlotState steps1 = some s1 →
    s1.slotOcc = some .A → s1.statA = .running →
    slotStep s1 (.submit .B) = some s2 →
    ∀ (steps3 : List SlotStep) (s3 : SlotState), runSlotSteps s2 steps3 = some s3 →
      (JobId.A ∈ s3.cache → JobId.A ∈ s2.cache) ∧ (s3.queueA ≠ none → s2.queueA ≠ none)

/-- The slot invariant `run_in_process` does maintain: a running worker
is the slot's registered occupant, and its submitting thread has not
yet passed the `_terminate_process(p)` line (it is still at `queue.get`
or about to terminate its own worker). -/
def slotInv (s : SlotState) : Prop :=
  (s.statA = .running → s.slotOcc = some .A ∧ (s.pcA = .awaitPc ∨ s.pcA = .termPc)) ∧
  (s.statB = .running → s.slotOcc = some .B ∧ (s.pcB = .awaitPc ∨ s.pcB = .termPc))

/-! ### Structured worker errors (src/main.py:5775, 5894) -/

/-- How one worker run ends, as seen through its result queue. -/
inductive WorkerOutcome where
  | completes (resultHtml : String)
  | raises (message : String)
  | neverReplies
deriving DecidableEq, Repr

/-- The message `run_rendering_task` posts: its whole body runs inside
`try`, and the `except` branch posts `{"error": str(e)}`. -/
inductive QueueMsg where
  | resultMsg (html : String)
  | errorMsg (message : String)
deriving DecidableEq, Repr

/-- `run_rendering_task` as a function of how its body ends. -/
def runRenderingTaskMsg : WorkerOutcome → Option QueueMsg
  | .completes html => some (.resultMsg html)
  | .raises msg => some (.errorMsg msg)
  | .neverReplies => none

/-- What the endpoint receives from `run_in_process`. -/
inductive RenderResponse where
  | okResponse (html : String)
  | errorResponse (message : String)
deriving DecidableEq, Repr

/-- The result handling of `run_in_process`: a delivered queue message
is returned as-is; a `queue.get` timeout is caught and turned into the
`Rendering failed:` error payload (`str(queue.Empty())` is empty). -/
def runInProcessResponse (w : WorkerOutcome) : RenderResponse :=
  match runRenderingTaskMsg w with
  | some (.resultMsg html) => .okResponse html
  | some (.errorMsg m) => .errorResponse m
  | none => .errorResponse "Rendering failed: "

/-! ### Dependency epoch and render-cache key (src/main.py:5828, 5860)

SQLite stores the `updated_at`/`created_at` timestamps as TEXT (ISO
form), so `MAX` is the lexicographic maximum and `CURRENT_TIMESTAMP`
values grow with time. -/

/-- The rows feeding `_hub_render_dependency_epoch`. -/
structure HubDbState where
  artifactUpdatedAts : List String
  versionCreatedAts : List String
deriving DecidableEq, Repr

/-- Lexicographic strict order on character lists — SQLite's BINARY
collation, under which ISO `CURRENT_TIMESTAMP` strings grow with
time. -/
def charListLtb : List Char → List Char → Bool
  | [], [] => false
  | [], _ :: _ => true
  | _ :: _, [] => false
  | a :: as, b :: bs => if a < b then true else if b < a then false else charListLtb as bs

/-- Strict BINARY-collation order on TEXT values. -/
def textLtb (a b : String) : Bool := charListLtb a.data b.data

/-- Binary `MAX` of two TEXT values. -/
def textMax (a b : String) : String := if textLtb a b then b else a

/-- `COALESCE(MAX(col), '')` over a TEXT column. -/
def coalesceMaxText : List String → String
  | [] => ""
  | x :: xs => xs.foldl textMax x

/-- `_hub_render_dependency_epoch`:
`f"{artifact_epoch}|{version_epoch}"`. -/
def hubRenderDependencyEpoch (db : HubDbState) : String :=
  coalesceMaxText db.artifactUpdatedAts ++ "|" ++ coalesceMaxText db.versionCreatedAts

/-- The cache key of `run_in_process`:
`f"{task_type}:{json.dumps(payload, sort_keys=True, default=str)}:hub={epoch}"`
(the canonicalized payload text is opaque here). -/
def renderCacheKey (taskType payloadJson epoch : String) : String :=
  taskType ++ ":" ++ payloadJson ++ ":hub=" ++ epoch

/-- Saving an artifact sets its row's `updated_at = CURRENT_TIMESTAMP`. -/
def touchArtifact (db : HubDbState) (i : Nat) (now : String) : HubDbState :=
  { db with artifactUpdatedAts := db.artifactUpdatedAts.set i now }

/-- `render_cache.get(key)`. -/
def renderCacheGet (cache : List (String × String)) (key : String) : Option String :=
  (cache.find? (fun kv => kv.1 == key)).map (fun kv => kv.2)

/-- `RENDER_CACHE_MAX_ENTRIES`. -/
def renderCacheMaxEntries : Nat := 24

/-- `render_cache[key] = value`, `move_to_end`, then LRU eviction from
the front while over capacity. -/
def renderCachePut (cache : List (String × String)) (key value : String) :
    List (String × String) :=
  let c1 := cache.filter (fun kv => kv.1 != key) ++ [(key, value)]
  c1.drop (c1.length - renderCacheMaxEntries)

/-! ### `_check_rate_limit` (src/main.py:59) -/

/-- `_rate_limit_store[key]` on the defaultdict. -/
def rateStoreGet (store : List (String × List Int)) (key : String) : List Int :=
  ((store.find? (fun kv => kv.1 == key)).map (fun kv => kv.2)).getD []

/-- `min(timestamps) if timestamps else now`. -/
def listMinD : List Int → Int → Int
  | [], d => d
  | x :: xs, _ => xs.foldl min x

/-- Model of `_check_rate_limit`: prune the key's window, reject with a
retry-after when `limit` many timestamps remain, otherwise record `now`.
Returns the updated store and `some retryAfter` exactly when the source
raises HTTP 429. -/
def checkRateLimit (store : List (String × List Int)) (key : String) (limit : Nat)
    (windowSeconds : Int) (now : Int) : List (String × List Int) × Option Int :=
  let timestamps := rateStoreGet store key
  let pruned := timestamps.filter (fun t => t > now - windowSeconds)
  if limit ≤ pruned.length then
    let oldest := listMinD pruned now
    let retryAfter := max 1 ((oldest + windowSeconds) - now)
    (upsertAssoc store key pruned, some retryAfter)
  else
    (upsertAssoc store key (pruned ++ [now]), none)

/-- The C6 failing input: the canonical struct of the user library
`X = (gadm("A") | gadm("B")) - gadm("C")` — one definition whose parts
are a two-value `gadm` leaf followed by a `difference` leaf. -/
def roundTripFailingStruct : LibStruct :=
  ⟨[("X", .cons (.leafL "gadm" "union" ["A", "B"])
      (.cons (.leafS "gadm" "difference" "C") .nil))], ["X"]⟩

end XatraGui

namespace XatraGui

/-! ## Theorems -/

/-- C5 counterexample: Python's `-` binds tighter than `|`, so the
claim's source expression `gadm("A") | gadm("B") - gadm("C")` parses as
`gadm("A") | (gadm("B") - gadm("C"))` — the token-level parse below
derives the AST from the source text itself.  Transpiling that AST does
not give the claimed three-leaf fold `[Leaf A, Leaf B, Leaf C
(difference)]`, its value does not evaluate to
`(gadm A ∪ gadm B) ∖ gadm C`, and the two geometries differ at a
concrete provider assignment, so the claimed scenario is false on the
code. -/
theorem c5_counterexample_flag_precedence :
    parseOrToks 64
        ((tokenizeLine 64 ("gadm(\"A\") | gadm(\"B\") - gadm(\"C\")").data).getD [])
      = some (.binop .bitor (.callGadm "A")
          (.binop .sub (.callGadm "B") (.callGadm "C")), []) ∧
    transpileFlagStmt (some "X")
        (.binop .bitor (.callGadm "A") (.binop .sub (.callGadm "B") (.callGadm "C")))
      ≠ some ⟨some "X",
          .cons (.leafS "gadm" "union" "A") (.cons (.leafS "gadm" "union" "B")
            (.cons (.leafS "gadm" "difference" "C") .nil))⟩ ∧
    (evalTerritoryParts (pureResolver fun _ => none) ()
        (.cons (.leafS "gadm" "union" "A")
          (.cons (.group "union" (.cons (.leafS "gadm" "union" "B")
            (.cons (.leafS "gadm" "difference" "C") .nil))) .nil))).2
      ≠ some (.difference (.union (.gadm "A") (.gadm "B")) (.gadm "C")) ∧
    (1 : ℕ) ∈ Geometry.interp
        (fun s => if s = "A" then {1} else if s = "B" then {2} else {1})
        (fun _ => ∅)
        (.union (.gadm "A") (.difference (.gadm "B") (.gadm "C"))) ∧
    (1 : ℕ) ∉ Geometry.interp
        (fun s => if s = "A" then {1} else if s = "B" then {2} else {1})
        (fun _ => ∅)
        (.difference (.union (.gadm "A") (.gadm "B")) (.gadm "C")) := by
  refine ⟨by decide, by decide, by decide, ?_, ?_⟩
  · simp [Geometry.interp]
  · simp [Geometry.interp]

/-- C5 amended: the statement `flag("X", gadm("A") | gadm("B") -
gadm("C"))` transpiles — through Python's operator precedence, `-`
tighter than `|`, the AST again derived from the source text by the
token-level parse — to a Flag element whose territory value is
`[Leaf A (union), Group (union) [Leaf B (union), Leaf C (difference)]]`,
the first op tag of each level forced to `union`, and evaluating that
value yields `gadm A ∪ (gadm B ∖ gadm C)` for every resolver: the
operator mapping `| → union, - → difference` and the left-to-right fold
hold per precedence level, not across levels. -/
theorem c5_flag_scenario_amended :
    parseOrToks 64
        ((tokenizeLine 64 ("gadm(\"A\") | gadm(\"B\") - gadm(\"C\")").data).getD [])
      = some (.binop .bitor (.callGadm "A")
          (.binop .sub (.callGadm "B") (.callGadm "C")), []) ∧
    transpileFlagStmt (some "X")
        (.binop .bitor (.callGadm "A") (.binop .sub (.callGadm "B") (.callGadm "C")))
      = some ⟨some "X",
          .cons (.leafS "gadm" "union" "A")
            (.cons (.group "union" (.cons (.leafS "gadm" "union" "B")
              (.cons (.leafS "gadm" "difference" "C") .nil))) .nil)⟩ ∧
    ∀ (r : String → Option Geometry),
      evalTerritoryParts (pureResolver r) ()
          (.cons (.leafS "gadm" "union" "A")
            (.cons (.group "union" (.cons (.leafS "gadm" "union" "B")
              (.cons (.leafS "gadm" "difference" "C") .nil))) .nil))
        = ((), some (.union (.gadm "A") (.difference (.gadm "B") (.gadm "C")))) :=
  ⟨by decide, by decide, fun _ => rfl⟩

/-- C7 counterexample: the run `gadm("A") | gadm("B")` is a run of two
union-only operands of the same leaf kind, yet the parser keeps it as
two single-value leaves — only parenthesized runs of ≥ 2 and whole
top-level union chains of ≥ 3 are collapsed. -/
theorem c7_counterexample_two_leaf_run :
    parseTerritoryExpr (.binop .bitor (.callGadm "A") (.callGadm "B"))
      = .cons (.leafS "gadm" "union" "A") (.cons (.leafS "gadm" "union" "B") .nil) ∧
    isSingleMultiLeaf (parseTerritoryExpr (.binop .bitor (.callGadm "A") (.callGadm "B")))
      = false := by
  decide

/-- C6: round-trip is broken on the code.  The failing struct — from the
real library source `X = (gadm("A") | gadm("B")) - gadm("C")` — is
serialized without parentheses, so Python operator precedence regroups
it as `gadm("A") | (gadm("B") - gadm("C"))` on re-parse: the struct
changes, and the two part lists even evaluate to different geometries
(`(A ∪ B) ∖ C` versus `A ∪ (B ∖ C)`). -/
theorem c6_roundtrip_code_bug :
    parseTerritoryLibraryCodeToStruct (territoryLibraryStructToCode roundTripFailingStruct)
        ≠ roundTripFailingStruct ∧
    territoryLibraryStructToCode roundTripFailingStruct
        = "X = gadm(\"A\") | gadm(\"B\") - gadm(\"C\")\n__TERRITORY_INDEX__ = [\"X\"]\n" ∧
    (evalTerritoryParts (pureResolver fun _ => none) ()
        (.cons (.leafL "gadm" "union" ["A", "B"])
          (.cons (.leafS "gadm" "difference" "C") .nil))).2
      = some (.difference (.union (.gadm "A") (.gadm "B")) (.gadm "C")) ∧
    (evalTerritoryParts (pureResolver fun _ => none) ()
        (.cons (.leafS "gadm" "union" "A")
          (.cons (.group "union" (.cons (.leafS "gadm" "union" "B")
            (.cons (.leafS "gadm" "difference" "C") .nil))) .nil))).2
      = some (.union (.gadm "A") (.difference (.gadm "B") (.gadm "C"))) ∧
    (1 : ℕ) ∈ Geometry.interp
        (fun s => if s = "A" then {1} else if s = "B" then {2} else {1, 2})
        (fun _ => ∅)
        (.union (.gadm "A") (.difference (.gadm "B") (.gadm "C"))) ∧
    (1 : ℕ) ∉ Geometry.interp
        (fun s => if s = "A" then {1} else if s = "B" then {2} else {1, 2})
        (fun _ => ∅)
        (.difference (.union (.gadm "A") (.gadm "B")) (.gadm "C")) := by
  refine ⟨by decide, by decide, rfl, rfl, ?_, ?_⟩
  · simp [Geometry.interp]
  · simp [Geometry.interp]

/-- C2 counterexample: in the untrusted builder pipeline the payload
sanitization event comes after the worker process is started, not
before scheduling. -/
theorem c2_counterexample_sanitize_in_worker : ¬ sanitizeBeforeSchedulingClaim := by
  unfold sanitizeBeforeSchedulingClaim
  decide

/-- C2 amended: sanitization of a non-elevated actor's builder payload
happens inside the worker — after the worker process starts but before
any option or element of the payload is applied — is skipped entirely
for trusted actors, and the applied payload is exactly the output of
`_sanitize_untrusted_builder_payload`. -/
theorem c2_sanitize_inside_worker :
    (builderSubmissionEvents false).indexOf RenderEv.startWorkerProcess <
      (builderSubmissionEvents false).indexOf RenderEv.workerSanitizePayload ∧
    (builderSubmissionEvents false).indexOf RenderEv.workerSanitizePayload <
      (builderSubmissionEvents false).indexOf RenderEv.workerApplyOptions ∧
    (builderSubmissionEvents false).indexOf RenderEv.workerSanitizePayload <
      (builderSubmissionEvents false).indexOf RenderEv.workerApplyElements ∧
    RenderEv.workerSanitizePayload ∉ builderSubmissionEvents true ∧
    ∀ (elements : List BElement) (options : JVal),
      builderAppliedPayload false elements options
        = sanitizeUntrustedBuilderPayload elements options :=
  ⟨by decide, by decide, by decide, by decide, fun _ _ => rfl⟩

/-- Python's `strip` is idempotent: stripping a stripped string changes
nothing. -/
theorem pyStripList_idem (l : List Char) : pyStripList (pyStripList l) = pyStripList l := by
  have heq : ∀ m : List Char, pyStripList m = List.rdropWhile pyWS (m.dropWhile pyWS) :=
    fun _ => rfl
  rw [heq l, heq]
  have hstep1 : (List.rdropWhile pyWS (l.dropWhile pyWS)).dropWhile pyWS
      = List.rdropWhile pyWS (l.dropWhile pyWS) := by
    obtain ⟨t, ht⟩ := List.rdropWhile_prefix pyWS (l.dropWhile pyWS)
    have hmself : (l.dropWhile pyWS).dropWhile pyWS = l.dropWhile pyWS :=
      List.dropWhile_idempotent _ _
    by_cases hy0 : List.rdropWhile pyWS (l.dropWhile pyWS) = []
    · rw [hy0]
      rfl
    · have happ : (List.rdropWhile pyWS (l.dropWhile pyWS) ++ t).dropWhile pyWS
          = List.rdropWhile pyWS (l.dropWhile pyWS) ++ t := by
        rw [ht]
        exact hmself
      rw [List.dropWhile_append] at happ
      by_cases hemp : ((List.rdropWhile pyWS (l.dropWhile pyWS)).dropWhile pyWS).isEmpty
      · rw [if_pos hemp] at happ
        have hlen := congrArg List.length happ
        have hle : (t.dropWhile pyWS).length ≤ t.length :=
          (List.dropWhile_sublist pyWS).length_le
        have hylen : 0 < (List.rdropWhile pyWS (l.dropWhile pyWS)).length :=
          List.length_pos.mpr hy0
        simp only [List.length_append] at hlen
        omega
      · rw [if_neg hemp] at happ
        exact List.append_cancel_right happ
  rw [hstep1, List.rdropWhile_idempotent]

/-- `pyStrip` is idempotent. -/
theorem pyStrip_idem (s : String) : pyStrip (pyStrip s) = pyStrip s := by
  simp only [pyStrip]
  exact congrArg String.mk (pyStripList_idem s.data)

/-- `pyEmpty` of a stripped value is stable under re-stripping. -/
theorem pyEmpty_pyStrip_idem (v : String) :
    pyEmpty (pyStrip (pyStrip v)) = pyEmpty (pyStrip v) := by
  rw [pyStrip_idem]

/-- The semantic value of `optUnionG` depends on its arguments only
through their semantics (right argument). -/
theorem optUnionG_congr_right {α : Type} (σg σp : String → Set α) (a : Option Geometry)
    {x y : Option Geometry}
    (h : Option.map (Geometry.interp σg σp) x = Option.map (Geometry.interp σg σp) y) :
    Option.map (Geometry.interp σg σp) (optUnionG a x)
      = Option.map (Geometry.interp σg σp) (optUnionG a y) := by
  cases a <;> cases x <;> cases y <;>
    simp_all [optUnionG, Option.map, Geometry.interp]

/-- The semantic value of `optUnionG` depends on its arguments only
through their semantics (left argument). -/
theorem optUnionG_congr_left {α : Type} (σg σp : String → Set α) (x : Option Geometry)
    {a b : Option Geometry}
    (h : Option.map (Geometry.interp σg σp) a = Option.map (Geometry.interp σg σp) b) :
    Option.map (Geometry.interp σg σp) (optUnionG a x)
      = Option.map (Geometry.interp σg σp) (optUnionG b x) := by
  cases a <;> cases b <;> cases x <;>
    simp_all [optUnionG, Option.map, Geometry.interp]

/-- Semantically, `optUnionG` is associative (set union is). -/
theorem optUnionG_assoc_sem {α : Type} (σg σp : String → Set α) (a b c : Option Geometry) :
    Option.map (Geometry.interp σg σp) (optUnionG (optUnionG a b) c)
      = Option.map (Geometry.interp σg σp) (optUnionG a (optUnionG b c)) := by
  cases a <;> cases b <;> cases c <;>
    simp [optUnionG, Option.map, Geometry.interp, Set.union_assoc]

/-- The gadm value loop splits over append. -/
theorem foldGadmVals_append (acc : Option Geometry) (xs ys : List String) :
    foldGadmVals acc (xs ++ ys) = foldGadmVals (foldGadmVals acc xs) ys := by
  induction xs generalizing acc with
  | nil => rfl
  | cons v rest ih =>
    by_cases h : pyEmpty (pyStrip v)
    · simp [foldGadmVals, h, ih]
    · simp [foldGadmVals, h, ih]

/-- The predefined value loop splits over append. -/
theorem foldPredefVals_append {σ : Type} (resolver : σ → String → σ × Option Geometry)
    (st : σ) (acc : Option Geometry) (xs ys : List String) :
    foldPredefVals resolver st acc (xs ++ ys)
      = foldPredefVals resolver (foldPredefVals resolver st acc xs).1
          (foldPredefVals resolver st acc xs).2 ys := by
  induction xs generalizing st acc with
  | nil => rfl
  | cons v rest ih =>
    by_cases h : pyEmpty (pyStrip v)
    · simp only [List.cons_append, foldPredefVals, h, if_pos]
      exact ih st acc
    · simp only [List.cons_append, foldPredefVals, h, if_neg, Bool.false_eq_true,
        not_false_iff]
      cases hr : resolver st (pyStrip v) with
      | mk st1 r =>
        cases r with
        | none => exact ih st1 acc
        | some terr => exact ih st1 _

/-- The resolver-state evolution of the predefined value loop does not
depend on the accumulator. -/
theorem foldPredefVals_state {σ : Type} (resolver : σ → String → σ × Option Geometry)
    (st : σ) (acc acc' : Option Geometry) (vs : List String) :
    (foldPredefVals resolver st acc vs).1 = (foldPredefVals resolver st acc' vs).1 := by
  induction vs generalizing st acc acc' with
  | nil => rfl
  | cons v rest ih =>
    by_cases h : pyEmpty (pyStrip v)
    · simp only [foldPredefVals, h, if_pos]
      exact ih st acc acc'
    · simp only [foldPredefVals, h, Bool.false_eq_true, not_false_iff, if_neg]
      cases hr : resolver st (pyStrip v) with
      | mk st1 r =>
        cases r with
        | none => exact ih st1 acc acc'
        | some terr => exact ih st1 _ _

/-- Stripping the values first does not change the gadm loop (the loop
strips each value itself). -/
theorem foldGadmVals_strip_map (acc : Option Geometry) (vs : List String) :
    foldGadmVals acc (vs.map pyStrip) = foldGadmVals acc vs := by
  induction vs generalizing acc with
  | nil => rfl
  | cons v rest ih =>
    simp only [List.map_cons, foldGadmVals, pyEmpty_pyStrip_idem, pyStrip_idem]
    by_cases h : pyEmpty (pyStrip v)
    · simp [h, ih]
    · simp [h, ih]

/-- Stripping the values first does not change the predefined loop. -/
theorem foldPredefVals_strip_map {σ : Type} (resolver : σ → String → σ × Option Geometry)
    (st : σ) (acc : Option Geometry) (vs : List String) :
    foldPredefVals resolver st acc (vs.map pyStrip) = foldPredefVals resolver st acc vs := by
  induction vs generalizing st acc with
  | nil => rfl
  | cons v rest ih =>
    simp only [List.map_cons, foldPredefVals, pyEmpty_pyStrip_idem, pyStrip_idem]
    by_cases h : pyEmpty (pyStrip v)
    · simp [h, ih]
    · simp only [h, Bool.false_eq_true, not_false_iff, if_neg]
      cases hr : resolver st (pyStrip v) with
      | mk st1 r =>
        cases r with
        | none => exact ih st1 acc
        | some terr => exact ih st1 _

/-- Semantically, running the gadm loop from an accumulator equals
joining the accumulator with the loop run from `none`. -/
theorem foldGadmVals_optUnion {α : Type} (σg σp : String → Set α)
    (acc : Option Geometry) (vs : List String) :
    Option.map (Geometry.interp σg σp) (foldGadmVals acc vs)
      = Option.map (Geometry.interp σg σp) (optUnionG acc (foldGadmVals none vs)) := by
  induction vs generalizing acc with
  | nil => cases acc <;> simp [foldGadmVals, optUnionG]
  | cons v rest ih =>
    by_cases h : pyEmpty (pyStrip v)
    · simp only [foldGadmVals, h, if_pos]
      exact ih acc
    · simp only [foldGadmVals, h, Bool.false_eq_true, not_false_iff, if_neg]
      rw [ih]
      have hK : (some (match acc with
          | none => Geometry.gadm (pyStrip v)
          | some p => Geometry.union p (Geometry.gadm (pyStrip v))) : Option Geometry)
          = optUnionG acc (some (Geometry.gadm (pyStrip v))) := by
        cases acc <;> rfl
      rw [hK, optUnionG_assoc_sem]
      exact (optUnionG_congr_right σg σp acc (ih (some (Geometry.gadm (pyStrip v))))).symm

/-- Semantically, running the predefined loop from an accumulator equals
joining the accumulator with the loop run from `none`. -/
theorem foldPredefVals_optUnion {α : Type} {σ : Type} (σg σp : String → Set α)
    (resolver : σ → String → σ × Option Geometry) (st : σ)
    (acc : Option Geometry) (vs : List String) :
    Option.map (Geometry.interp σg σp) (foldPredefVals resolver st acc vs).2
      = Option.map (Geometry.interp σg σp)
          (optUnionG acc (foldPredefVals resolver st none vs).2) := by
  induction vs generalizing st acc with
  | nil => cases acc <;> simp [foldPredefVals, optUnionG]
  | cons v rest ih =>
    by_cases h : pyEmpty (pyStrip v)
    · simp only [foldPredefVals, h, if_pos]
      exact ih st acc
    · simp only [foldPredefVals, h, Bool.false_eq_true, not_false_iff, if_neg]
      cases hr : resolver st (pyStrip v) with
      | mk st1 r =>
        cases r with
        | none => exact ih st1 acc
        | some terr =>
          rw [ih st1]
          have hK : (some (match acc with
              | none => terr
              | some p => Geometry.union p terr) : Option Geometry)
              = optUnionG acc (some terr) := by
            cases acc <;> rfl
          rw [hK, optUnionG_assoc_sem]
          exact (optUnionG_congr_right σg σp acc (ih st1 (some terr))).symm

/-- The accumulator does not influence the resolver-state evolution of
the leaf value fold. -/
theorem leafValsFold_state {σ : Type} (t : String)
    (resolver : σ → String → σ × Option Geometry) (st : σ)
    (acc acc' : Option Geometry) (vs : List String) :
    (leafValsFold t resolver st acc vs).1 = (leafValsFold t resolver st acc' vs).1 := by
  by_cases h : t == "gadm"
  · simp [leafValsFold, h]
  · simp [leafValsFold, h, foldPredefVals_state resolver st acc acc']

/-- The leaf value fold splits over append. -/
theorem leafValsFold_append {σ : Type} (t : String)
    (resolver : σ → String → σ × Option Geometry) (st : σ)
    (acc : Option Geometry) (xs ys : List String) :
    leafValsFold t resolver st acc (xs ++ ys)
      = leafValsFold t resolver (leafValsFold t resolver st acc xs).1
          (leafValsFold t resolver st acc xs).2 ys := by
  by_cases h : t == "gadm"
  · simp [leafValsFold, h, foldGadmVals_append]
  · simp [leafValsFold, h, foldPredefVals_append]

/-- Pre-stripped values fold identically. -/
theorem leafValsFold_strip_map {σ : Type} (t : String)
    (resolver : σ → String → σ × Option Geometry) (st : σ)
    (acc : Option Geometry) (vs : List String) :
    leafValsFold t resolver st acc (vs.map pyStrip) = leafValsFold t resolver st acc vs := by
  by_cases h : t == "gadm"
  · simp [leafValsFold, h, foldGadmVals_strip_map]
  · simp [leafValsFold, h, foldPredefVals_strip_map]

/-- Semantically, folding from an accumulator equals joining the
accumulator with the fold from `none`. -/
theorem leafValsFold_optUnion {α σ : Type} (σg σp : String → Set α) (t : String)
    (resolver : σ → String → σ × Option Geometry) (st : σ)
    (acc : Option Geometry) (vs : List String) :
    Option.map (Geometry.interp σg σp) (leafValsFold t resolver st acc vs).2
      = Option.map (Geometry.interp σg σp)
          (optUnionG acc (leafValsFold t resolver st none vs).2) := by
  by_cases h : t == "gadm"
  · simp [leafValsFold, h, foldGadmVals_optUnion]
  · simp [leafValsFold, h, foldPredefVals_optUnion]

/-- The leaf value fold respects semantic equality of accumulators. -/
theorem leafValsFold_acc_congr {α σ : Type} (σg σp : String → Set α) (t : String)
    (resolver : σ → String → σ × Option Geometry) (st : σ)
    {a b : Option Geometry}
    (h : Option.map (Geometry.interp σg σp) a = Option.map (Geometry.interp σg σp) b)
    (vs : List String) :
    (leafValsFold t resolver st a vs).1 = (leafValsFold t resolver st b vs).1 ∧
    Option.map (Geometry.interp σg σp) (leafValsFold t resolver st a vs).2
      = Option.map (Geometry.interp σg σp) (leafValsFold t resolver st b vs).2 := by
  refine ⟨leafValsFold_state t resolver st a b vs, ?_⟩
  rw [leafValsFold_optUnion σg σp t resolver st a vs,
    leafValsFold_optUnion σg σp t resolver st b vs]
  exact optUnionG_congr_left σg σp _ h

/-- A single-value gadm/predefined leaf evaluates through the leaf
value fold. -/
theorem evalPiece_leafS {σ : Type} {t : String} (ht : t = "gadm" ∨ t = "predefined")
    (resolver : σ → String → σ × Option Geometry) (st : σ) (o v : String) :
    evalTerritoryPiece resolver st (.leafS t o v) = leafValsFold t resolver st none [v] := by
  rcases ht with h | h <;> subst h <;> rfl

/-- A multi-value gadm/predefined leaf evaluates through the leaf value
fold. -/
theorem evalPiece_leafL {σ : Type} {t : String} (ht : t = "gadm" ∨ t = "predefined")
    (resolver : σ → String → σ × Option Geometry) (st : σ) (o : String) (vs : List String) :
    evalTerritoryPiece resolver st (.leafL t o vs) = leafValsFold t resolver st none vs := by
  rcases ht with h | h <;> subst h <;> rfl

/-- One step of the part loop for a `"union"`-tagged part, phrased with
`optUnionG`. -/
theorem evalGo_cons_union {σ : Type} (resolver : σ → String → σ × Option Geometry)
    (st : σ) (out : Option Geometry) (part : TerrPart) (rest : TerrParts)
    (hop : part.getOp = "union") :
    evalTerritoryPartsGo resolver st out (.cons part rest)
      = evalTerritoryPartsGo resolver (evalTerritoryPiece resolver st part).1
          (optUnionG out (evalTerritoryPiece resolver st part).2) rest := by
  cases hp : evalTerritoryPiece resolver st part with
  | mk st1 piece =>
    simp only [evalTerritoryPartsGo, hp]
    cases piece with
    | none => cases out <;> simp [optUnionG]
    | some pc =>
      cases out with
      | none => simp [optUnionG]
      | some o => simp [optUnionG, hop]

/-- One step of the part loop from an empty accumulator (the part's op
tag is irrelevant there). -/
theorem evalGo_cons_none {σ : Type} (resolver : σ → String → σ × Option Geometry)
    (st : σ) (part : TerrPart) (rest : TerrParts) :
    evalTerritoryPartsGo resolver st none (.cons part rest)
      = evalTerritoryPartsGo resolver (evalTerritoryPiece resolver st part).1
          (optUnionG none (evalTerritoryPiece resolver st part).2) rest := by
  cases hp : evalTerritoryPiece resolver st part with
  | mk st1 piece =>
    simp only [evalTerritoryPartsGo, hp]
    cases piece with
    | none => simp [optUnionG]
    | some pc => simp [optUnionG]

/-- Structural induction for part lists (the default eliminator of the
mutual family has several motives). -/
theorem TerrParts.inductionOn {motive : TerrParts → Prop} (hnil : motive .nil)
    (hcons : ∀ p tl, motive tl → motive (.cons p tl)) : ∀ ps, motive ps
  | .nil => hnil
  | .cons p tl => hcons p tl (TerrParts.inductionOn hnil hcons tl)

/-- The chain lemma: a run of parts accepted by the compressor's
collection loop (in non-first mode) evaluates — same resolver-state
path, same semantics — like the single leaf value fold over the
collected values. -/
theorem evalChain_collect {α σ : Type} (σg σp : String → Set α) (t : String)
    (ht : t = "gadm" ∨ t = "predefined") (allow : Bool)
    (resolver : σ → String → σ × Option Geometry) :
    ∀ (parts : TerrParts) (vs : List String),
      collectCompressValues t allow false parts = some vs →
      ∀ (st : σ) (acc : Option Geometry),
        (evalTerritoryPartsGo resolver st acc parts).1
            = (leafValsFold t resolver st acc vs).1 ∧
        Option.map (Geometry.interp σg σp) (evalTerritoryPartsGo resolver st acc parts).2
            = Option.map (Geometry.interp σg σp) (leafValsFold t resolver st acc vs).2 := by
  intro parts
  induction parts using TerrParts.inductionOn with
  | hnil =>
    intro vs hcol st acc
    simp only [collectCompressValues, Option.some.injEq] at hcol
    subst hcol
    have hval : leafValsFold t resolver st acc [] = (st, acc) := by
      by_cases h : t == "gadm" <;> simp [leafValsFold, h, foldGadmVals, foldPredefVals]
    rw [hval]
    exact ⟨rfl, rfl⟩
  | hcons p rest ih =>
    intro vs hcol st acc
    simp only [collectCompressValues, Bool.not_false, Bool.true_and] at hcol
    by_cases h1 : p.getType != t
    · simp [h1] at hcol
    by_cases h2 : p.getOp != "union"
    · simp [h1, h2] at hcol
    have hop : p.getOp = "union" := by
      simpa using h2
    have htype : p.getType = t := by
      simpa using h1
    rw [evalGo_cons_union resolver st acc p rest hop]
    cases p with
    | leafS t' o v =>
      have ht' : t' = t := htype
      subst ht'
      simp only [h1, h2, if_neg, Bool.false_eq_true, not_false_iff] at hcol
      by_cases hv : pyEmpty (pyStrip v)
      · simp [hv] at hcol
      simp only [hv, Bool.false_eq_true, not_false_iff, if_neg, Option.map_eq_some'] at hcol
      obtain ⟨vsRest, hrest, hvs⟩ := hcol
      subst hvs
      rw [evalPiece_leafS ht resolver st o v]
      have hB : leafValsFold t' resolver st none [pyStrip v]
          = leafValsFold t' resolver st none [v] := by
        have := leafValsFold_strip_map t' resolver st none [v]
        simpa using this
      have hA1 : (leafValsFold t' resolver st acc [pyStrip v]).1
          = (leafValsFold t' resolver st none [v]).1 := by
        rw [← hB]
        exact leafValsFold_state t' resolver st acc none [pyStrip v]
      have hA2 : Option.map (Geometry.interp σg σp)
            (leafValsFold t' resolver st acc [pyStrip v]).2
          = Option.map (Geometry.interp σg σp)
            (optUnionG acc (leafValsFold t' resolver st none [v]).2) := by
        rw [← hB]
        exact leafValsFold_optUnion σg σp t' resolver st acc [pyStrip v]
      have happ : leafValsFold t' resolver st acc (pyStrip v :: vsRest)
          = leafValsFold t' resolver (leafValsFold t' resolver st acc [pyStrip v]).1
              (leafValsFold t' resolver st acc [pyStrip v]).2 vsRest := by
        have := leafValsFold_append t' resolver st acc [pyStrip v] vsRest
        simpa using this
      obtain ⟨ihs, ihm⟩ := ih vsRest hrest
        (leafValsFold t' resolver st none [v]).1
        (optUnionG acc (leafValsFold t' resolver st none [v]).2)
      obtain ⟨hcs, hcm⟩ := leafValsFold_acc_congr σg σp t' resolver
        (leafValsFold t' resolver st none [v]).1 hA2.symm vsRest
      rw [happ, hA1]
      exact ⟨ihs.trans hcs, ihm.trans hcm⟩
    | leafL t' o ws =>
      have ht' : t' = t := htype
      subst ht'
      simp only [h1, h2, if_neg, Bool.false_eq_true, not_false_iff] at hcol
      by_cases hallow : !allow
      · simp [hallow] at hcol
      by_cases hitems : ws.any (fun item => pyEmpty (pyStrip item))
      · simp [hallow, hitems] at hcol
      by_cases hwsnil : ws.isEmpty
      · simp [hallow, hitems, hwsnil] at hcol
      simp only [hallow, hitems, hwsnil, Bool.false_eq_true, not_false_iff, if_neg,
        Option.map_eq_some'] at hcol
      obtain ⟨vsRest, hrest, hvs⟩ := hcol
      subst hvs
      rw [evalPiece_leafL ht resolver st o ws]
      have hB : leafValsFold t' resolver st none (ws.map pyStrip)
          = leafValsFold t' resolver st none ws :=
        leafValsFold_strip_map t' resolver st none ws
      have hA1 : (leafValsFold t' resolver st acc (ws.map pyStrip)).1
          = (leafValsFold t' resolver st none ws).1 := by
        rw [← hB]
        exact leafValsFold_state t' resolver st acc none (ws.map pyStrip)
      have hA2 : Option.map (Geometry.interp σg σp)
            (leafValsFold t' resolver st acc (ws.map pyStrip)).2
          = Option.map (Geometry.interp σg σp)
            (optUnionG acc (leafValsFold t' resolver st none ws).2) := by
        rw [← hB]
        exact leafValsFold_optUnion σg σp t' resolver st acc (ws.map pyStrip)
      have happ : leafValsFold t' resolver st acc (ws.map pyStrip ++ vsRest)
          = leafValsFold t' resolver (leafValsFold t' resolver st acc (ws.map pyStrip)).1
              (leafValsFold t' resolver st acc (ws.map pyStrip)).2 vsRest :=
        leafValsFold_append t' resolver st acc (ws.map pyStrip) vsRest
      obtain ⟨ihs, ihm⟩ := ih vsRest hrest
        (leafValsFold t' resolver st none ws).1
        (optUnionG acc (leafValsFold t' resolver st none ws).2)
      obtain ⟨hcs, hcm⟩ := leafValsFold_acc_congr σg σp t' resolver
        (leafValsFold t' resolver st none ws).1 hA2.symm vsRest
      rw [happ, hA1]
      exact ⟨ihs.trans hcs, ihm.trans hcm⟩
    | group o ps =>
      simp [h1, h2] at hcol

/-- C7 amended: the runs that the parser does collapse — parenthesized
union-only same-kind runs of at least 2 operands and whole top-level
union chains of at least 3 — are exactly the part lists accepted by
`_compress_multi_value_parts`, and such a compressed multi-value leaf
evaluates to the same geometry (and drives the resolver through the same
state path) as the uncompressed chain; a top-level union chain of
exactly 2 operands is not collapsed. -/
theorem c7_compression_sound (parts : TerrParts) (allow : Bool) (c : TerrPart)
    (hc : compressMultiValueParts parts allow = some c)
    {α σ : Type} (σg σp : String → Set α)
    (resolver : σ → String → σ × Option Geometry) (st : σ) :
    (evalTerritoryParts resolver st (.cons c .nil)).1
        = (evalTerritoryParts resolver st parts).1 ∧
    Option.map (Geometry.interp σg σp) (evalTerritoryParts resolver st (.cons c .nil)).2
        = Option.map (Geometry.interp σg σp) (evalTerritoryParts resolver st parts).2 := by
  unfold compressMultiValueParts at hc
  by_cases hlen : parts.length < 2
  · simp [hlen] at hc
  simp only [hlen, if_neg, not_false_iff] at hc
  cases parts with
  | nil => exact absurd (by simp [TerrParts.length] : TerrParts.nil.length < 2) hlen
  | cons p0 rest =>
    by_cases hbase : p0.getType != "gadm" && p0.getType != "predefined"
    · simp [hbase] at hc
    simp only [hbase, Bool.false_eq_true, not_false_iff, if_neg] at hc
    have ht : p0.getType = "gadm" ∨ p0.getType = "predefined" := by
      by_contra hno
      push_neg at hno
      exact hbase (by simp [bne_iff_ne, hno.1, hno.2])
    cases hcol : collectCompressValues p0.getType allow true (.cons p0 rest) with
    | none => simp [hcol] at hc
    | some values =>
      simp only [hcol] at hc
      by_cases hvlen : values.length < 2
      · simp [hvlen] at hc
      simp only [hvlen, if_neg, not_false_iff, Option.some.injEq] at hc
      subst hc
      -- the head of the collect loop
      simp only [collectCompressValues, bne_self_eq_false, Bool.not_true, Bool.false_and,
        Bool.false_eq_true, if_neg, not_false_iff, if_false] at hcol
      -- left side: the compressed leaf is one leaf value fold
      have hL : evalTerritoryParts resolver st
            (.cons (.leafL p0.getType "union" values) .nil)
          = leafValsFold p0.getType resolver st none values := by
        rw [evalTerritoryParts, evalGo_cons_none resolver st _ .nil,
          evalPiece_leafL ht resolver st "union" values]
        cases hfold : leafValsFold p0.getType resolver st none values with
        | mk st1 piece => cases piece <;> simp [evalTerritoryPartsGo, optUnionG]
      cases p0 with
      | leafS t' o v =>
        by_cases hv : pyEmpty (pyStrip v)
        · simp [hv] at hcol
        simp only [hv, Bool.false_eq_true, not_false_iff, if_neg,
          Option.map_eq_some'] at hcol
        obtain ⟨vsRest, hrest, hvs⟩ := hcol
        subst hvs
        have htS : (TerrPart.leafS t' o v).getType = t' := rfl
        rw [htS] at ht hL ⊢
        rw [hL]
        -- right side
        rw [evalTerritoryParts, evalGo_cons_none resolver st _ rest,
          evalPiece_leafS ht resolver st o v]
        obtain ⟨ihs, ihm⟩ := evalChain_collect σg σp t' ht allow resolver rest vsRest hrest
          (leafValsFold t' resolver st none [v]).1
          (optUnionG none (leafValsFold t' resolver st none [v]).2)
        have hsplit : leafValsFold t' resolver st none (pyStrip v :: vsRest)
            = leafValsFold t' resolver (leafValsFold t' resolver st none [pyStrip v]).1
                (leafValsFold t' resolver st none [pyStrip v]).2 vsRest := by
          have := leafValsFold_append t' resolver st none [pyStrip v] vsRest
          simpa using this
        have hB : leafValsFold t' resolver st none [pyStrip v]
            = leafValsFold t' resolver st none [v] := by
          have := leafValsFold_strip_map t' resolver st none [v]
          simpa using this
        have hnone : optUnionG none (leafValsFold t' resolver st none [v]).2
            = (leafValsFold t' resolver st none [v]).2 := rfl
        rw [hsplit, hB, hnone] at *
        exact ⟨ihs.symm, ihm.symm⟩
      | leafL t' o ws =>
        by_cases hallow : !allow
        · simp [hallow] at hcol
        by_cases hitems : ws.any (fun item => pyEmpty (pyStrip item))
        · simp [hallow, hitems] at hcol
        by_cases hwsnil : ws.isEmpty
        · simp [hallow, hitems, hwsnil] at hcol
        simp only [hallow, hitems, hwsnil, Bool.false_eq_true, not_false_iff, if_neg,
          Option.map_eq_some'] at hcol
        obtain ⟨vsRest, hrest, hvs⟩ := hcol
        subst hvs
        have htS : (TerrPart.leafL t' o ws).getType = t' := rfl
        rw [htS] at ht hL ⊢
        rw [hL]
        rw [evalTerritoryParts, evalGo_cons_none resolver st _ rest,
          evalPiece_leafL ht resolver st o ws]
        obtain ⟨ihs, ihm⟩ := evalChain_collect σg σp t' ht allow resolver rest vsRest hrest
          (leafValsFold t' resolver st none ws).1
          (optUnionG none (leafValsFold t' resolver st none ws).2)
        have hsplit : leafValsFold t' resolver st none (ws.map pyStrip ++ vsRest)
            = leafValsFold t' resolver (leafValsFold t' resolver st none (ws.map pyStrip)).1
                (leafValsFold t' resolver st none (ws.map pyStrip)).2 vsRest :=
          leafValsFold_append t' resolver st none (ws.map pyStrip) vsRest
        have hB : leafValsFold t' resolver st none (ws.map pyStrip)
            = leafValsFold t' resolver st none ws :=
          leafValsFold_strip_map t' resolver st none ws
        have hnone : optUnionG none (leafValsFold t' resolver st none ws).2
            = (leafValsFold t' resolver st none ws).2 := rfl
        rw [hsplit, hB, hnone] at *
        exact ⟨ihs.symm, ihm.symm⟩
      | group o ps =>
        simp at hcol

/-- Witness for C7 at a concrete input: the parenthesized run
`(gadm("A") | gadm("B"))` compresses to one two-value leaf that
evaluates like the chain. -/
theorem c7_compression_sound_witness :
    compressMultiValueParts
        (.cons (.leafS "gadm" "union" "A") (.cons (.leafS "gadm" "union" "B") .nil)) false
      = some (.leafL "gadm" "union" ["A", "B"]) ∧
    ((evalTerritoryParts (pureResolver fun _ => none) ()
          (.cons (.leafL "gadm" "union" ["A", "B"]) .nil)).1
        = (evalTerritoryParts (pureResolver fun _ => none) ()
            (.cons (.leafS "gadm" "union" "A")
              (.cons (.leafS "gadm" "union" "B") .nil))).1 ∧
      Option.map (Geometry.interp (fun _ => ({} : Set ℕ)) fun _ => {})
          (evalTerritoryParts (pureResolver fun _ => none) ()
            (.cons (.leafL "gadm" "union" ["A", "B"]) .nil)).2
        = Option.map (Geometry.interp (fun _ => ({} : Set ℕ)) fun _ => {})
            (evalTerritoryParts (pureResolver fun _ => none) ()
              (.cons (.leafS "gadm" "union" "A")
                (.cons (.leafS "gadm" "union" "B") .nil))).2) :=
  ⟨by decide,
    c7_compression_sound
      (.cons (.leafS "gadm" "union" "A") (.cons (.leafS "gadm" "union" "B") .nil)) false
      (.leafL "gadm" "union" ["A", "B"]) (by decide)
      (fun _ => ({} : Set ℕ)) (fun _ => {}) (pureResolver fun _ => none) ()⟩

/-- C3: cycle safety.  Resolving the self-referential library `X = X`
terminates, memoizes `None` for `X` and leaves the namespace empty;
`X = X | gadm("A")` still best-effort resolves to `gadm A` (the
self-cycle leaf is skipped, the rest of the definition survives); and
two map artifacts importing each other resolve without deadlock — the
repeated import is short-circuited by the active-import set while both
artifacts' own elements are still collected, the imported one's first. -/
theorem c3_cycle_safety :
    (∀ (d b bi : String → Option Geometry),
      libResolver [("X", .cons (.leafS "predefined" "union" "X") .nil)] d b bi true [] [] "X"
        = ([("X", none)], none)) ∧
    (∀ (d b bi : String → Option Geometry),
      materializeLibraryNamespace
          ⟨[("X", .cons (.leafS "predefined" "union" "X") .nil)], ["X"]⟩ d b bi true = []) ∧
    (∀ (d b bi : String → Option Geometry),
      materializeLibraryNamespace
          ⟨[("X", .cons (.leafS "predefined" "union" "X")
              (.cons (.leafS "gadm" "union" "A") .nil))], ["X"]⟩ d b bi true
        = [("X", .gadm "A")]) ∧
    xatrahubResolve [("A", .mapArt ["B"] ["a1"]), ("B", .mapArt ["A"] ["b1"])] [] [] "A"
      = ["b1", "a1"] := by
  refine ⟨fun d b bi => ?_, fun d b bi => ?_, fun d b bi => ?_, ?_⟩
  · simp [libResolver, libEvalParts, libEvalPiece, libFoldPredef, pyStrip, pyStripList, pyWS,
      upsertAssoc, foldGadmVals, List.find?, pyEmpty]
  · simp [materializeLibraryNamespace, materializeGo, buildLibDefinitions, libResolver,
      libEvalParts, libEvalPiece, libFoldPredef, pyStrip, pyStripList, pyWS, upsertAssoc,
      foldGadmVals, List.find?, pyStartsWith, pyEmpty]
  · simp [materializeLibraryNamespace, materializeGo, buildLibDefinitions, libResolver,
      libEvalParts, libEvalPiece, libFoldPredef, pyStrip, pyStripList, pyWS, upsertAssoc,
      foldGadmVals, List.find?, pyStartsWith, pyEmpty]
  · simp [xatrahubResolve, xatrahubImports, List.find?]

mutual
/-- Stripping raw-expression wrappers is the identity on wrapper-free
values. -/
theorem stripPythonWrappers_id : ∀ v, wrapperFree v = true → stripPythonWrappers v = v
  | .jnull, _ => rfl
  | .jbool _, _ => rfl
  | .jnum _, _ => rfl
  | .jstr _, _ => rfl
  | .jlist items, h => by
    have h' : wrapperFreeList items = true := by simpa [wrapperFree] using h
    simp only [stripPythonWrappers]
    rw [stripPythonWrappersList_id items h']
  | .jobj .nil, _ => rfl
  | .jobj (.cons k v tl), h => by
    have hw : isWrapperObj (.cons k v tl) = false
        ∧ wrapperFreeObj (.cons k v tl) = true := by
      have h2 := h
      simp only [wrapperFree, Bool.and_eq_true, Bool.not_eq_true'] at h2
      exact h2
    cases v with
    | jstr s =>
      cases tl with
      | nil =>
        have hk : (k == pythonExprKey) = false := by
          simpa [isWrapperObj] using hw.1
        simp [stripPythonWrappers, hk]
      | cons k2 v2 tl2 =>
        simp only [stripPythonWrappers]
        rw [stripPythonWrappersObj_id _ hw.2]
    | jnull =>
      simp only [stripPythonWrappers]
      rw [stripPythonWrappersObj_id _ hw.2]
    | jbool b =>
      simp only [stripPythonWrappers]
      rw [stripPythonWrappersObj_id _ hw.2]
    | jnum n =>
      simp only [stripPythonWrappers]
      rw [stripPythonWrappersObj_id _ hw.2]
    | jlist items2 =>
      simp only [stripPythonWrappers]
      rw [stripPythonWrappersObj_id _ hw.2]
    | jobj fields2 =>
      simp only [stripPythonWrappers]
      rw [stripPythonWrappersObj_id _ hw.2]
/-- Wrapper stripping is the identity on wrapper-free lists. -/
theorem stripPythonWrappersList_id :
    ∀ l, wrapperFreeList l = true → stripPythonWrappersList l = l
  | .nil, _ => rfl
  | .cons v tl, h => by
    have h' : wrapperFree v = true ∧ wrapperFreeList tl = true := by
      simpa [wrapperFreeList, Bool.and_eq_true] using h
    simp only [stripPythonWrappersList]
    rw [stripPythonWrappers_id v h'.1, stripPythonWrappersList_id tl h'.2]
/-- Wrapper stripping is the identity on wrapper-free objects. -/
theorem stripPythonWrappersObj_id :
    ∀ o, wrapperFreeObj o = true → stripPythonWrappersObj o = o
  | .nil, _ => rfl
  | .cons k v tl, h => by
    have h' : wrapperFree v = true ∧ wrapperFreeObj tl = true := by
      simpa [wrapperFreeObj, Bool.and_eq_true] using h
    simp only [stripPythonWrappersObj]
    rw [stripPythonWrappers_id v h'.1, stripPythonWrappersObj_id tl h'.2]
end

/-- The sanitizer keeps element types unchanged. -/
theorem sanitizeElementDict_etype (e : BElement) :
    (sanitizeElementDict e).etype = e.etype := rfl

/-- No `"python"`-typed element survives the sanitizer loop. -/
theorem sanitizeElementsLoop_no_python :
    ∀ (es : List BElement) (e : BElement), e ∈ sanitizeElementsLoop es →
      elementTypeLower e ≠ "python" := by
  intro es
  induction es with
  | nil => intro e he; simp [sanitizeElementsLoop] at he
  | cons e0 rest ih =>
    intro e he
    by_cases h0 : elementTypeLower e0 == "python"
    · rw [sanitizeElementsLoop, if_pos h0] at he
      exact ih e he
    · rw [sanitizeElementsLoop, if_neg h0] at he
      rcases List.mem_cons.mp he with h | h
      · subst h
        intro hc
        apply h0
        have : elementTypeLower (sanitizeElementDict e0) = elementTypeLower e0 := rfl
        rw [this] at hc
        simp [hc]
      · exact ih e h

/-- Every non-`"python"` element contributes its sanitized form to the
loop's output. -/
theorem sanitizeElementsLoop_mem :
    ∀ (es : List BElement) (e : BElement), e ∈ es → elementTypeLower e ≠ "python" →
      sanitizeElementDict e ∈ sanitizeElementsLoop es := by
  intro es
  induction es with
  | nil => intro e he; simp at he
  | cons e0 rest ih =>
    intro e he hnp
    rcases List.mem_cons.mp he with h | h
    · subst h
      have h0 : (elementTypeLower e == "python") = false := by
        simpa using hnp
      rw [sanitizeElementsLoop, h0]
      simp
    · by_cases h0 : elementTypeLower e0 == "python"
      · rw [sanitizeElementsLoop, if_pos h0]
        exact ih e h hnp
      · rw [sanitizeElementsLoop, if_neg h0]
        exact List.mem_cons_of_mem _ (ih e h hnp)

/-- The sanitizer is the identity on a wrapper-free non-point element
whose `args` is a dict. -/
theorem sanitizeElementDict_id :
    ∀ (e : BElement), elementTypeLower e ≠ "point" → elementWrapperFree e = true →
      e.args.isObj = true → sanitizeElementDict e = e
  | ⟨et, lb, vl, ag⟩, hnp, hwf, hargs => by
    simp only [elementWrapperFree, Bool.and_eq_true] at hwf
    obtain ⟨⟨hl, hv⟩, ha⟩ := hwf
    cases ag with
    | jobj fields =>
      have hpt : (elementTypeLower ⟨et, lb, vl, .jobj fields⟩ == "point") = false := by
        simpa using hnp
      simp only [sanitizeElementDict, JVal.isObj, if_pos]
      rw [stripPythonWrappers_id _ hl, stripPythonWrappers_id _ hv,
        stripPythonWrappers_id _ ha]
      simp [hpt]
    | jnull => simp [JVal.isObj] at hargs
    | jbool b => simp [JVal.isObj] at hargs
    | jnum n => simp [JVal.isObj] at hargs
    | jstr s => simp [JVal.isObj] at hargs
    | jlist l => simp [JVal.isObj] at hargs

/-- C8 counterexample: a payload with a `"python"` element, a URL-icon
point, and a flag whose label is a raw-expression wrapper — the flag is
an "other" element, yet sanitization rewrites its label, so it is not
preserved unchanged. -/
theorem c8_counterexample_wrapper_modified : ¬ untrustedSanitizationClaim := by
  unfold untrustedSanitizationClaim
  intro h
  have h2 := h
    [⟨"python", .jnull, .jstr "code", .jobj .nil⟩,
     ⟨"point", .jnull, .jnull,
       .jobj (.cons "icon" (.jobj (.cons "type" (.jstr "url") .nil)) .nil)⟩,
     ⟨"flag", .jobj (.cons pythonExprKey (.jstr "1+1") .nil), .jnull, .jobj .nil⟩]
    .jnull
    ⟨⟨"python", .jnull, .jstr "code", .jobj .nil⟩, by decide, by decide⟩
    ⟨⟨"point", .jnull, .jnull,
        .jobj (.cons "icon" (.jobj (.cons "type" (.jstr "url") .nil)) .nil)⟩, by decide,
      by decide, .cons "icon" (.jobj (.cons "type" (.jstr "url") .nil)) .nil,
      .cons "type" (.jstr "url") .nil, rfl, by decide, by decide⟩
  have h3 := h2.2
    ⟨"flag", .jobj (.cons pythonExprKey (.jstr "1+1") .nil), .jnull, .jobj .nil⟩
    (by decide) (by decide) (by decide)
  exact absurd h3 (by decide)

/-- C8 amended: sanitizing an untrusted payload leaves zero `"python"`
elements; a point's dict icon of URL type (or with an `icon_url` key)
becomes null; the point's sanitized `args` is its (wrapper-free) `args`
with the icon entry rewritten; and every other element is preserved up
to stripping raw-expression wrappers — in particular, a wrapper-free
non-point element with dict `args` is kept exactly unchanged. -/
theorem c8_sanitization_amended :
    (∀ (elements : List BElement) (options : JVal) (e : BElement),
        e ∈ (sanitizeUntrustedBuilderPayload elements options).1 →
        elementTypeLower e ≠ "python") ∧
    (∀ (fields : JObj),
        pyLower (pyStrip (jvalPyStr (fields.get "type"))) = "url" →
        sanitizeUntrustedPointIcon (.jobj fields) = .jnull) ∧
    (∀ (e : BElement) (fields : JObj), elementTypeLower e = "point" →
        e.args = .jobj fields → wrapperFree e.args = true →
        (sanitizeElementDict e).args
          = .jobj (fields.set "icon" (sanitizeUntrustedPointIcon (fields.get "icon")))) ∧
    (∀ (elements : List BElement) (options : JVal) (e : BElement),
        e ∈ elements → elementTypeLower e ≠ "python" → elementTypeLower e ≠ "point" →
        elementWrapperFree e = true → e.args.isObj = true →
        e ∈ (sanitizeUntrustedBuilderPayload elements options).1) := by
  refine ⟨?_, ?_, ?_, ?_⟩
  · intro elements options e he
    exact sanitizeElementsLoop_no_python elements e he
  · intro fields hurl
    simp [sanitizeUntrustedPointIcon, hurl]
  · intro e fields hpt harg hwf
    have hobj : e.args.isObj = true := by rw [harg]; rfl
    have hptb : (elementTypeLower e == "point") = true := by simpa using hpt
    simp only [sanitizeElementDict, hobj, if_pos]
    rw [stripPythonWrappers_id e.args hwf, harg]
    simp [hptb]
  · intro elements options e he hnp hnpt hwf hargs
    have := sanitizeElementsLoop_mem elements e he hnp
    rw [sanitizeElementDict_id e hnpt hwf hargs] at this
    exact this

/-- Witness for C8's amended statement at a concrete payload. -/
theorem c8_sanitization_amended_witness :
    (elementTypeLower ⟨"flag", .jnull, .jnull, .jobj .nil⟩ ≠ "python") ∧
    sanitizeUntrustedPointIcon (.jobj (.cons "type" (.jstr "url") .nil)) = .jnull ∧
    (⟨"flag", .jnull, .jnull, .jobj .nil⟩ : BElement) ∈
      (sanitizeUntrustedBuilderPayload
        [⟨"python", .jnull, .jstr "x", .jobj .nil⟩, ⟨"flag", .jnull, .jnull, .jobj .nil⟩]
        .jnull).1 := by
  have h := c8_sanitization_amended
  refine ⟨?_, ?_, ?_⟩
  · exact h.1
      [⟨"python", .jnull, .jstr "x", .jobj .nil⟩, ⟨"flag", .jnull, .jnull, .jobj .nil⟩]
      .jnull ⟨"flag", .jnull, .jnull, .jobj .nil⟩ (by decide)
  · exact h.2.1 (.cons "type" (.jstr "url") .nil) (by decide)
  · exact h.2.2.2
      [⟨"python", .jnull, .jstr "x", .jobj .nil⟩, ⟨"flag", .jnull, .jnull, .jobj .nil⟩]
      .jnull ⟨"flag", .jnull, .jnull, .jobj .nil⟩ (by decide) (by decide) (by decide)
      (by decide) (by decide)

/-- C9: every exception raised inside the worker body is posted as the
structured `{"error": str(e)}` message and surfaced verbatim to the
caller; a worker that never replies is caught by the `queue.get`
timeout; in all cases `run_in_process` returns either a renderable
result or a structured error — never a raw exception. -/
theorem c9_structured_errors :
    (∀ m, runRenderingTaskMsg (.raises m) = some (.errorMsg m)) ∧
    (∀ m, runInProcessResponse (.raises m) = .errorResponse m) ∧
    runInProcessResponse .neverReplies = .errorResponse "Rendering failed: " ∧
    ∀ w, (∃ h, runInProcessResponse w = .okResponse h) ∨
      (∃ m, runInProcessResponse w = .errorResponse m) := by
  refine ⟨fun _ => rfl, fun _ => rfl, rfl, fun w => ?_⟩
  cases w with
  | completes h => exact .inl ⟨h, rfl⟩
  | raises m => exact .inr ⟨m, rfl⟩
  | neverReplies => exact .inr ⟨_, rfl⟩

/-! ### C1: slot exclusivity -/

/-- C1 counterexample: job A's worker posts its result, job B is then
submitted on the same slot (hard-terminating A's worker), yet A's
submitting thread still pulls the already-queued message and stores A's
stale result into the render cache after B has started. -/
theorem c1_counterexample_stale_cache_write : ¬ slotExclusivityClaim := by
  intro h
  have hv := h [.submit .A, .workerPut .A]
    ⟨some .A, .running, .notStarted, some true, none, .awaitPc, .submitPc, none, none, []⟩
    ⟨some .B, .killed, .running, some true, none, .awaitPc, .awaitPc, none, none, []⟩
    (by decide) rfl rfl (by decide)
    [.getResult .A, .terminateOwn .A, .deregister .A, .cacheStore .A]
    ⟨some .B, .killed, .running, none, none, .donePc, .awaitPc, some true, none, [.A]⟩
    (by decide)
  exact absurd (hv.1 (by decide)) (by decide)

/-- The initial state satisfies the slot invariant. -/
theorem slotInv_init : slotInv initSlotState := by
  unfold slotInv initSlotState
  exact ⟨fun h => by simp at h, fun h => by simp at h⟩

/-- One enabled step preserves the slot invariant. -/
theorem slotInv_step (s s' : SlotState) (σ : SlotStep)
    (hinv : slotInv s) (hstep : slotStep s σ = some s') : slotInv s' := by
  obtain ⟨occ, sA, sB, qA, qB, pA, pB, rA, rB, c⟩ := s
  unfold slotInv at hinv
  obtain ⟨hA, hB⟩ := hinv
  cases σ with
  | submit j =>
    cases j with
    | A =>
      simp only [slotStep, SlotState.pc, SlotState.stat] at hstep
      by_cases hg : (pA == ThreadPc.submitPc && sA == ProcStatus.notStarted) = true
      · rw [if_pos hg] at hstep
        injection hstep with hs
        subst hs
        rw [Bool.and_eq_true, beq_iff_eq, beq_iff_eq] at hg
        obtain ⟨hpA, hsA⟩ := hg
        subst hpA
        subst hsA
        cases occ with
        | none =>
          exact ⟨fun _ => ⟨rfl, .inl rfl⟩, fun h => absurd (hB h).1 (by simp)⟩
        | some k =>
          cases k with
          | A =>
            simp only [submitEffect, SlotState.stat, SlotState.setStat, SlotState.setPc]
            rw [if_neg (by decide)]
            exact ⟨fun _ => ⟨rfl, .inl rfl⟩, fun h => absurd (hB h).1 (by simp)⟩
          | B =>
            simp only [submitEffect, SlotState.stat, SlotState.setStat, SlotState.setPc]
            by_cases hrun : (sB == ProcStatus.running) = true
            · rw [if_pos hrun]
              exact ⟨fun _ => ⟨rfl, .inl rfl⟩, fun h => ProcStatus.noConfusion h⟩
            · rw [if_neg hrun]
              exact ⟨fun _ => ⟨rfl, .inl rfl⟩,
                fun h => absurd (by rw [show sB = ProcStatus.running from h]; exact beq_self_eq_true ProcStatus.running) hrun⟩
      · rw [if_neg hg] at hstep
        exact Option.noConfusion hstep
    | B =>
      simp only [slotStep, SlotState.pc, SlotState.stat] at hstep
      by_cases hg : (pB == ThreadPc.submitPc && sB == ProcStatus.notStarted) = true
      · rw [if_pos hg] at hstep
        injection hstep with hs
        subst hs
        rw [Bool.and_eq_true, beq_iff_eq, beq_iff_eq] at hg
        obtain ⟨hpB, hsB⟩ := hg
        subst hpB
        subst hsB
        cases occ with
        | none =>
          exact ⟨fun h => absurd (hA h).1 (by simp), fun _ => ⟨rfl, .inl rfl⟩⟩
        | some k =>
          cases k with
          | B =>
            simp only [submitEffect, SlotState.stat, SlotState.setStat, SlotState.setPc]
            rw [if_neg (by decide)]
            exact ⟨fun h => absurd (hA h).1 (by simp), fun _ => ⟨rfl, .inl rfl⟩⟩
          | A =>
            simp only [submitEffect, SlotState.stat, SlotState.setStat, SlotState.setPc]
            by_cases hrun : (sA == ProcStatus.running) = true
            · rw [if_pos hrun]
              exact ⟨fun h => ProcStatus.noConfusion h, fun _ => ⟨rfl, .inl rfl⟩⟩
            · rw [if_neg hrun]
              exact ⟨fun h => absurd (by rw [show sA = ProcStatus.running from h]; exact beq_self_eq_true ProcStatus.running) hrun,
                fun _ => ⟨rfl, .inl rfl⟩⟩
      · rw [if_neg hg] at hstep
        exact Option.noConfusion hstep
  | workerPut j =>
    cases j with
    | A =>
      simp only [slotStep, SlotState.stat, SlotState.queue] at hstep
      by_cases hg : (sA == ProcStatus.running && qA == none) = true
      · rw [if_pos hg] at hstep
        injection hstep with hs
        subst hs
        exact ⟨hA, hB⟩
      · rw [if_neg hg] at hstep
        exact Option.noConfusion hstep
    | B =>
      simp only [slotStep, SlotState.stat, SlotState.queue] at hstep
      by_cases hg : (sB == ProcStatus.running && qB == none) = true
      · rw [if_pos hg] at hstep
        injection hstep with hs
        subst hs
        exact ⟨hA, hB⟩
      · rw [if_neg hg] at hstep
        exact Option.noConfusion hstep
  | workerExit j =>
    cases j with
    | A =>
      simp only [slotStep, SlotState.stat] at hstep
      by_cases hg : (sA == ProcStatus.running) = true
      · rw [if_pos hg] at hstep
        injection hstep with hs
        subst hs
        exact ⟨fun h => ProcStatus.noConfusion h, hB⟩
      · rw [if_neg hg] at hstep
        exact Option.noConfusion hstep
    | B =>
      simp only [slotStep, SlotState.stat] at hstep
      by_cases hg : (sB == ProcStatus.running) = true
      · rw [if_pos hg] at hstep
        injection hstep with hs
        subst hs
        exact ⟨hA, fun h => ProcStatus.noConfusion h⟩
      · rw [if_neg hg] at hstep
        exact Option.noConfusion hstep
  | getResult j =>
    cases j with
    | A =>
      cases qA with
      | none =>
        simp only [slotStep, SlotState.queue] at hstep
        exact Option.noConfusion hstep
      | some m =>
        simp only [slotStep, SlotState.queue, SlotState.pc] at hstep
        by_cases hg : (pA == ThreadPc.awaitPc) = true
        · rw [if_pos hg] at hstep
          injection hstep with hs
          subst hs
          exact ⟨fun h => ⟨(hA h).1, .inr rfl⟩, hB⟩
        · rw [if_neg hg] at hstep
          exact Option.noConfusion hstep
    | B =>
      cases qB with
      | none =>
        simp only [slotStep, SlotState.queue] at hstep
        exact Option.noConfusion hstep
      | some m =>
        simp only [slotStep, SlotState.queue, SlotState.pc] at hstep
        by_cases hg : (pB == ThreadPc.awaitPc) = true
        · rw [if_pos hg] at hstep
          injection hstep with hs
          subst hs
          exact ⟨hA, fun h => ⟨(hB h).1, .inr rfl⟩⟩
        · rw [if_neg hg] at hstep
          exact Option.noConfusion hstep
  | awaitTimeout j =>
    cases j with
    | A =>
      simp only [slotStep, SlotState.pc, SlotState.queue] at hstep
      by_cases hg : (pA == ThreadPc.awaitPc && qA == none) = true
      · rw [if_pos hg] at hstep
        injection hstep with hs
        subst hs
        exact ⟨fun h => ⟨(hA h).1, .inr rfl⟩, hB⟩
      · rw [if_neg hg] at hstep
        exact Option.noConfusion hstep
    | B =>
      simp only [slotStep, SlotState.pc, SlotState.queue] at hstep
      by_cases hg : (pB == ThreadPc.awaitPc && qB == none) = true
      · rw [if_pos hg] at hstep
        injection hstep with hs
        subst hs
        exact ⟨hA, fun h => ⟨(hB h).1, .inr rfl⟩⟩
      · rw [if_neg hg] at hstep
        exact Option.noConfusion hstep
  | terminateOwn j =>
    cases j with
    | A =>
      simp only [slotStep, SlotState.pc, SlotState.stat] at hstep
      by_cases hg : (pA == ThreadPc.termPc) = true
      · rw [if_pos hg] at hstep
        by_cases hrun : (sA == ProcStatus.running) = true
        · rw [if_pos hrun] at hstep
          injection hstep with hs
          subst hs
          exact ⟨fun h => ProcStatus.noConfusion h, hB⟩
        · rw [if_neg hrun] at hstep
          injection hstep with hs
          subst hs
          exact ⟨fun h => absurd (by rw [show sA = ProcStatus.running from h]; exact beq_self_eq_true ProcStatus.running) hrun, hB⟩
      · rw [if_neg hg] at hstep
        exact Option.noConfusion hstep
    | B =>
      simp only [slotStep, SlotState.pc, SlotState.stat] at hstep
      by_cases hg : (pB == ThreadPc.termPc) = true
      · rw [if_pos hg] at hstep
        by_cases hrun : (sB == ProcStatus.running) = true
        · rw [if_pos hrun] at hstep
          injection hstep with hs
          subst hs
          exact ⟨hA, fun h => ProcStatus.noConfusion h⟩
        · rw [if_neg hrun] at hstep
          injection hstep with hs
          subst hs
          exact ⟨hA, fun h => absurd (by rw [show sB = ProcStatus.running from h]; exact beq_self_eq_true ProcStatus.running) hrun⟩
      · rw [if_neg hg] at hstep
        exact Option.noConfusion hstep
  | deregister j =>
    cases j with
    | A =>
      simp only [slotStep, SlotState.pc] at hstep
      by_cases hg : (pA == ThreadPc.deregPc) = true
      · rw [if_pos hg] at hstep
        rw [beq_iff_eq] at hg
        subst hg
        injection hstep with hs
        subst hs
        by_cases hocc : (occ == some JobId.A) = true
        · rw [if_pos hocc]
          refine ⟨fun h => ?_, fun h => ?_⟩
          · rcases (hA h).2 with h' | h' <;> exact ThreadPc.noConfusion h'
          · have h1 : occ = some JobId.A := beq_iff_eq.mp hocc
            have h2 : occ = some JobId.B := (hB h).1
            rw [h1] at h2
            exact absurd (Option.some.inj h2) (by decide)
        · rw [if_neg hocc]
          refine ⟨fun h => ?_, fun h => hB h⟩
          rcases (hA h).2 with h' | h' <;> exact ThreadPc.noConfusion h'
      · rw [if_neg hg] at hstep
        exact Option.noConfusion hstep
    | B =>
      simp only [slotStep, SlotState.pc] at hstep
      by_cases hg : (pB == ThreadPc.deregPc) = true
      · rw [if_pos hg] at hstep
        rw [beq_iff_eq] at hg
        subst hg
        injection hstep with hs
        subst hs
        by_cases hocc : (occ == some JobId.B) = true
        · rw [if_pos hocc]
          refine ⟨fun h => ?_, fun h => ?_⟩
          · have h1 : occ = some JobId.B := beq_iff_eq.mp hocc
            have h2 : occ = some JobId.A := (hA h).1
            rw [h1] at h2
            exact absurd (Option.some.inj h2) (by decide)
          · rcases (hB h).2 with h' | h' <;> exact ThreadPc.noConfusion h'
        · rw [if_neg hocc]
          refine ⟨fun h => hA h, fun h => ?_⟩
          rcases (hB h).2 with h' | h' <;> exact ThreadPc.noConfusion h'
      · rw [if_neg hg] at hstep
        exact Option.noConfusion hstep
  | cacheStore j =>
    cases j with
    | A =>
      simp only [slotStep, SlotState.pc, SlotState.res] at hstep
      by_cases hg : (pA == ThreadPc.cachePc) = true
      · rw [if_pos hg] at hstep
        rw [beq_iff_eq] at hg
        subst hg
        injection hstep with hs
        subst hs
        by_cases hres : (rA == some true) = true
        · rw [if_pos hres]
          refine ⟨fun h => ?_, fun h => hB h⟩
          rcases (hA h).2 with h' | h' <;> exact ThreadPc.noConfusion h'
        · rw [if_neg hres]
          refine ⟨fun h => ?_, fun h => hB h⟩
          rcases (hA h).2 with h' | h' <;> exact ThreadPc.noConfusion h'
      · rw [if_neg hg] at hstep
        exact Option.noConfusion hstep
    | B =>
      simp only [slotStep, SlotState.pc, SlotState.res] at hstep
      by_cases hg : (pB == ThreadPc.cachePc) = true
      · rw [if_pos hg] at hstep
        rw [beq_iff_eq] at hg
        subst hg
        injection hstep with hs
        subst hs
        by_cases hres : (rB == some true) = true
        · rw [if_pos hres]
          refine ⟨fun h => hA h, fun h => ?_⟩
          rcases (hB h).2 with h' | h' <;> exact ThreadPc.noConfusion h'
        · rw [if_neg hres]
          refine ⟨fun h => hA h, fun h => ?_⟩
          rcases (hB h).2 with h' | h' <;> exact ThreadPc.noConfusion h'
      · rw [if_neg hg] at hstep
        exact Option.noConfusion hstep

/-- Every state reachable from an invariant state keeps the slot
invariant. -/
theorem slotInv_run : ∀ (steps : List SlotStep) (s₀ s : SlotState),
    slotInv s₀ → runSlotSteps s₀ steps = some s → slotInv s
  | [], s₀, s, h0, hrun => by
    simp only [runSlotSteps] at hrun
    injection hrun with hs
    exact hs ▸ h0
  | σ :: rest, s₀, s, h0, hrun => by
    simp only [runSlotSteps] at hrun
    cases hstep : slotStep s₀ σ with
    | none =>
      rw [hstep] at hrun
      exact Option.noConfusion hrun
    | some s₁ =>
      rw [hstep] at hrun
      exact slotInv_run rest s₁ s (slotInv_step s₀ s₁ σ h0 hstep) hrun

/-- C1 amended: what the slot machinery does guarantee.  (i) At most
one job of a slot is ever `Running` in any reachable state; (ii) a
killed worker never writes to its result channel; (iii) submitting over
a running occupant hard-terminates it and only then starts the new
job.  (The stated claim's final clause — that the terminated job's
result never reaches the cache or channel after the new job starts —
fails: see the counterexample.) -/
theorem c1_slot_exclusivity_amended :
    (∀ (steps : List SlotStep) (s : SlotState),
      runSlotSteps initSlotState steps = some s →
      ¬ (s.statA = .running ∧ s.statB = .running)) ∧
    (∀ (s : SlotState) (j : JobId), s.stat j = .killed →
      slotStep s (.workerPut j) = none) ∧
    (∀ (s s₂ : SlotState), s.slotOcc = some .A → s.statA = .running →
      slotStep s (.submit .B) = some s₂ →
      s₂.statA = .killed ∧ s₂.statB = .running ∧ s₂.slotOcc = some .B) := by
  refine ⟨?_, ?_, ?_⟩
  · intro steps s hrun hcon
    obtain ⟨hra, hrb⟩ := hcon
    have hinv := slotInv_run steps initSlotState s slotInv_init hrun
    unfold slotInv at hinv
    have h1 := (hinv.1 hra).1
    have h2 := (hinv.2 hrb).1
    rw [h1] at h2
    exact absurd (Option.some.inj h2) (by decide)
  · intro s j hkill
    cases j with
    | A =>
      simp only [slotStep]
      refine if_neg ?_
      intro hcon
      rw [Bool.and_eq_true] at hcon
      have h1 := hcon.1
      simp only [SlotState.stat] at hkill h1
      rw [hkill] at h1
      exact absurd h1 (by decide)
    | B =>
      simp only [slotStep]
      refine if_neg ?_
      intro hcon
      rw [Bool.and_eq_true] at hcon
      have h1 := hcon.1
      simp only [SlotState.stat] at hkill h1
      rw [hkill] at h1
      exact absurd h1 (by decide)
  · intro s s₂ hocc hrun hstep
    simp only [slotStep] at hstep
    by_cases hg : (s.pc .B == ThreadPc.submitPc && s.stat .B == ProcStatus.notStarted) = true
    · rw [if_pos hg] at hstep
      injection hstep with hs
      subst hs
      obtain ⟨occ, sA, sB, qA, qB, pA, pB, rA, rB, c⟩ := s
      have hocc' : occ = some JobId.A := hocc
      have hrun' : sA = ProcStatus.running := hrun
      subst hocc'
      subst hrun'
      exact ⟨rfl, rfl, rfl⟩
    · rw [if_neg hg] at hstep
      exact Option.noConfusion hstep

/-- Concrete instances of the amended slot guarantees: the empty run,
a killed job A, and a submit of B over running occupant A. -/
theorem c1_slot_exclusivity_amended_witness :
    (¬ (initSlotState.statA = .running ∧ initSlotState.statB = .running)) ∧
    slotStep ⟨some .A, .killed, .notStarted, none, none, .termPc, .submitPc, none, none, []⟩
      (.workerPut .A) = none ∧
    ((⟨some .B, .killed, .running, none, none, .awaitPc, .awaitPc, none, none, []⟩ :
        SlotState).statA = .killed) :=
  ⟨c1_slot_exclusivity_amended.1 [] initSlotState rfl,
   c1_slot_exclusivity_amended.2.1
     ⟨some .A, .killed, .notStarted, none, none, .termPc, .submitPc, none, none, []⟩ .A rfl,
   (c1_slot_exclusivity_amended.2.2
     ⟨some .A, .running, .notStarted, none, none, .awaitPc, .submitPc, none, none, []⟩
     ⟨some .B, .killed, .running, none, none, .awaitPc, .awaitPc, none, none, []⟩
     rfl rfl rfl).1⟩

/-! ### C10: the rate-limiter state invariant -/

/-- `find?` over the in-place-update branch of `upsertAssoc` returns the
freshly written pair. -/
theorem find_map_upsert {α : Type} (key : String) (v : α) :
    ∀ (store : List (String × α)), store.any (fun kv => kv.1 == key) = true →
      (store.map (fun kv => if kv.1 == key then (key, v) else kv)).find?
          (fun kv => kv.1 == key) = some (key, v)
  | [], h => by simp at h
  | kv :: rest, h => by
    by_cases hk : (kv.1 == key) = true
    · simp [List.find?, hk]
    · have hrest : rest.any (fun kv => kv.1 == key) = true := by
        simpa [List.any_cons, hk] using h
      simpa [List.find?, hk] using find_map_upsert key v rest hrest

/-- Reading a key back right after `store[key] = l`. -/
theorem rateStoreGet_upsert (store : List (String × List Int)) (key : String)
    (l : List Int) : rateStoreGet (upsertAssoc store key l) key = l := by
  unfold rateStoreGet upsertAssoc
  by_cases h : store.any (fun kv => kv.1 == key) = true
  · rw [if_pos h, find_map_upsert key l store h]
    rfl
  · rw [if_neg h]
    have hnone : store.find? (fun kv => kv.1 == key) = none := by
      rw [List.find?_eq_none]
      intro x hx hpx
      exact h (List.any_eq_true.mpr ⟨x, hx, hpx⟩)
    rw [List.find?_append, hnone]
    simp [List.find?]

/-- C10: the rate limiter's state invariant.  If a key's stored list
held at most `limit` timestamps before a call, then after the call its
in-window portion still holds at most `limit`; a rejected (HTTP 429)
call stores exactly the pruned old window — `now` is not recorded, so
repeated rejected calls never extend the lockout — and an accepted call
finds strictly fewer than `limit` in-window entries and appends exactly
`now`. -/
theorem c10_rate_limiter_invariant (store : List (String × List Int)) (key : String)
    (limit : Nat) (windowSeconds now : Int)
    (hpre : (rateStoreGet store key).length ≤ limit) :
    (((rateStoreGet (checkRateLimit store key limit windowSeconds now).1 key).filter
        (fun t => t > now - windowSeconds)).length ≤ limit) ∧
    ((checkRateLimit store key limit windowSeconds now).2 ≠ none →
      rateStoreGet (checkRateLimit store key limit windowSeconds now).1 key
        = (rateStoreGet store key).filter (fun t => t > now - windowSeconds)) ∧
    ((checkRateLimit store key limit windowSeconds now).2 = none →
      ((rateStoreGet store key).filter (fun t => t > now - windowSeconds)).length < limit ∧
      rateStoreGet (checkRateLimit store key limit windowSeconds now).1 key
        = (rateStoreGet store key).filter (fun t => t > now - windowSeconds) ++ [now]) := by
  simp only [checkRateLimit]
  by_cases hrej :
      limit ≤ ((rateStoreGet store key).filter (fun t => t > now - windowSeconds)).length
  · rw [if_pos hrej]
    refine ⟨?_, fun _ => rateStoreGet_upsert store key _, fun hc => absurd hc (by simp)⟩
    rw [rateStoreGet_upsert]
    exact le_trans (List.length_filter_le _ _)
      (le_trans (List.length_filter_le _ _) hpre)
  · rw [if_neg hrej]
    push_neg at hrej
    refine ⟨?_, fun hc => absurd rfl hc, fun _ => ⟨hrej, rateStoreGet_upsert store key _⟩⟩
    rw [rateStoreGet_upsert]
    calc (((rateStoreGet store key).filter (fun t => t > now - windowSeconds)
            ++ [now]).filter (fun t => t > now - windowSeconds)).length
        ≤ ((rateStoreGet store key).filter (fun t => t > now - windowSeconds)
            ++ [now]).length := List.length_filter_le _ _
      _ = ((rateStoreGet store key).filter (fun t => t > now - windowSeconds)).length + 1 := by
            rw [List.length_append]
            rfl
      _ ≤ limit := hrej

/-! ### C4: cache epoch invalidation -/

/-- Two strings with the same character list are equal. -/
theorem stringDataInj {a b : String} (h : a.data = b.data) : a = b :=
  congrArg String.mk h

/-- The BINARY order is asymmetric. -/
theorem charListLtb_asymm : ∀ (as bs : List Char),
    charListLtb as bs = true → charListLtb bs as = false
  | [], [], h => by simp [charListLtb] at h
  | [], _ :: _, _ => by simp [charListLtb]
  | _ :: _, [], h => by simp [charListLtb] at h
  | a :: as, b :: bs, h => by
    simp only [charListLtb] at h ⊢
    by_cases hab : a < b
    · rw [if_neg (lt_asymm hab), if_pos hab]
    · rw [if_neg hab] at h
      by_cases hba : b < a
      · rw [if_pos hba] at h
        exact absurd h (by simp)
      · rw [if_neg hba] at h
        rw [if_neg hba, if_neg hab]
        exact charListLtb_asymm as bs h

/-- The BINARY order is irreflexive. -/
theorem charListLtb_irrefl : ∀ (as : List Char), charListLtb as as = false
  | [] => rfl
  | a :: as => by
    simp only [charListLtb]
    rw [if_neg (lt_irrefl a), if_neg (lt_irrefl a)]
    exact charListLtb_irrefl as

/-- Irreflexivity, on TEXT values. -/
theorem textLtb_irrefl (s : String) : textLtb s s = false :=
  charListLtb_irrefl s.data

/-- `MAX` of two TEXT values picks one of them. -/
theorem textMax_choice (a b : String) : textMax a b = a ∨ textMax a b = b := by
  unfold textMax
  by_cases h : textLtb a b = true
  · rw [if_pos h]
    exact .inr rfl
  · rw [if_neg h]
    exact .inl rfl

/-- `MAX` keeps a value no other value exceeds. -/
theorem textMax_now_left (y now : String) (hy : textLtb y now = true ∨ y = now) :
    textMax now y = now := by
  unfold textMax
  rcases hy with h | h
  · rw [if_neg (by rw [textLtb] at h ⊢; simp [charListLtb_asymm y.data now.data h])]
  · rw [h, if_neg (by simp [textLtb_irrefl])]

/-- `MAX` promotes a value that exceeds the accumulator. -/
theorem textMax_now_right (a now : String) (ha : textLtb a now = true ∨ a = now) :
    textMax a now = now := by
  unfold textMax
  rcases ha with h | h
  · rw [if_pos h]
  · rw [h, if_neg (by simp [textLtb_irrefl])]

/-- A `MAX` fold lands on the start value or a list element. -/
theorem foldl_textMax_mem : ∀ (l : List String) (a : String),
    l.foldl textMax a = a ∨ l.foldl textMax a ∈ l
  | [], _ => .inl rfl
  | y :: ys, a => by
    rw [List.foldl_cons]
    rcases foldl_textMax_mem ys (textMax a y) with h | h
    · rw [h]
      rcases textMax_choice a y with hc | hc
      · exact .inl hc
      · right
        rw [hc]
        exact List.mem_cons_self y ys
    · right
      exact List.mem_cons_of_mem y h

/-- A `MAX` fold over values all at most `now`, with `now` present,
returns `now`. -/
theorem foldl_textMax_dominant : ∀ (l : List String) (a now : String),
    (∀ x ∈ l, textLtb x now = true ∨ x = now) →
    (textLtb a now = true ∨ a = now) → (now = a ∨ now ∈ l) →
    l.foldl textMax a = now
  | [], a, now, _, _, hmem => by
    rcases hmem with h | h
    · exact h.symm
    · simp at h
  | y :: ys, a, now, hall, ha, hmem => by
    have hy := hall y (List.mem_cons_self y ys)
    have hys : ∀ x ∈ ys, textLtb x now = true ∨ x = now :=
      fun x hx => hall x (List.mem_cons_of_mem y hx)
    have hacc : textLtb (textMax a y) now = true ∨ textMax a y = now := by
      rcases textMax_choice a y with h | h <;> rw [h]
      · exact ha
      · exact hy
    rw [List.foldl_cons]
    rcases hmem with h | h
    · refine foldl_textMax_dominant ys (textMax a y) now hys hacc (.inl ?_)
      rw [← h]
      exact (textMax_now_left y now hy).symm
    · rcases List.mem_cons.mp h with h | h
      · refine foldl_textMax_dominant ys (textMax a y) now hys hacc (.inl ?_)
        rw [← h]
        exact (textMax_now_right a now (h ▸ ha)).symm
      · exact foldl_textMax_dominant ys (textMax a y) now hys hacc (.inr h)

/-- `COALESCE(MAX(col), '')` over a non-empty column returns a column
value. -/
theorem coalesceMaxText_mem (l : List String) (hne : l ≠ []) : coalesceMaxText l ∈ l := by
  cases l with
  | nil => exact absurd rfl hne
  | cons y ys =>
    show ys.foldl textMax y ∈ y :: ys
    rcases foldl_textMax_mem ys y with h | h
    · rw [h]
      exact List.mem_cons_self y ys
    · exact List.mem_cons_of_mem y h

/-- After `updated_at = CURRENT_TIMESTAMP` on one row, with every old
timestamp strictly older, the column `MAX` is the fresh timestamp. -/
theorem coalesceMaxText_set (l : List String) (i : Nat) (now : String)
    (hi : i < l.length) (hlt : ∀ s ∈ l, textLtb s now = true) :
    coalesceMaxText (l.set i now) = now := by
  have hlen : i < (l.set i now).length := by simpa using hi
  have hmemset : now ∈ l.set i now := by
    have h1 : (l.set i now)[i] = now := List.getElem_set_self hlen
    have h2 := List.getElem_mem hlen
    rw [h1] at h2
    exact h2
  have hub : ∀ x ∈ l.set i now, textLtb x now = true ∨ x = now := by
    intro x hx
    rcases List.mem_or_eq_of_mem_set hx with h | h
    · exact .inl (hlt x h)
    · exact .inr h
  cases hset : l.set i now with
  | nil =>
    rw [hset] at hmemset
    simp at hmemset
  | cons y ys =>
    rw [hset] at hmemset hub
    show ys.foldl textMax y = now
    refine foldl_textMax_dominant ys y now
      (fun x hx => hub x (List.mem_cons_of_mem y hx))
      (hub y (List.mem_cons_self y ys)) ?_
    rcases List.mem_cons.mp hmemset with h | h
    · exact .inl h
    · exact .inr h

/-- Saving any artifact changes the dependency epoch. -/
theorem hubEpoch_touch_ne (db : HubDbState) (i : Nat) (now : String)
    (hi : i < db.artifactUpdatedAts.length)
    (hlt : ∀ s ∈ db.artifactUpdatedAts, textLtb s now = true) :
    hubRenderDependencyEpoch (touchArtifact db i now) ≠ hubRenderDependencyEpoch db := by
  intro h
  have h1 : coalesceMaxText (db.artifactUpdatedAts.set i now) = now :=
    coalesceMaxText_set db.artifactUpdatedAts i now hi hlt
  have h2 : textLtb (coalesceMaxText db.artifactUpdatedAts) now = true :=
    hlt _ (coalesceMaxText_mem db.artifactUpdatedAts
      (by intro hnil; rw [hnil] at hi; simp at hi))
  have hd' : (coalesceMaxText (db.artifactUpdatedAts.set i now)).data
        ++ ("|").data ++ (coalesceMaxText db.versionCreatedAts).data
      = (coalesceMaxText db.artifactUpdatedAts).data
        ++ ("|").data ++ (coalesceMaxText db.versionCreatedAts).data := by
    have hd := congrArg String.data h
    rw [show hubRenderDependencyEpoch (touchArtifact db i now)
        = coalesceMaxText (db.artifactUpdatedAts.set i now) ++ "|"
          ++ coalesceMaxText db.versionCreatedAts from rfl] at hd
    rw [show hubRenderDependencyEpoch db
        = coalesceMaxText db.artifactUpdatedAts ++ "|"
          ++ coalesceMaxText db.versionCreatedAts from rfl] at hd
    rw [String.data_append, String.data_append, String.data_append,
      String.data_append] at hd
    exact hd
  have hu : coalesceMaxText (db.artifactUpdatedAts.set i now)
      = coalesceMaxText db.artifactUpdatedAts :=
    stringDataInj (List.append_cancel_right (List.append_cancel_right hd'))
  rw [h1] at hu
  rw [← hu, textLtb_irrefl] at h2
  exact absurd h2 (by simp)

/-- The cache key determines the epoch component. -/
theorem renderCacheKey_epoch_inj (t p e₁ e₂ : String)
    (h : renderCacheKey t p e₁ = renderCacheKey t p e₂) : e₁ = e₂ := by
  have hd := congrArg String.data h
  simp only [renderCacheKey, String.data_append, List.append_assoc] at hd
  exact stringDataInj
    (List.append_cancel_left (List.append_cancel_left (List.append_cancel_left
      (List.append_cancel_left hd))))

/-- Storing under one key cannot create a hit for a different absent
key. -/
theorem renderCacheGet_put_other (cache : List (String × String)) (k₁ k₂ v : String)
    (hne : k₂ ≠ k₁) (hmiss : renderCacheGet cache k₂ = none) :
    renderCacheGet (renderCachePut cache k₁ v) k₂ = none := by
  unfold renderCacheGet at hmiss ⊢
  unfold renderCachePut
  rw [Option.map_eq_none'] at hmiss ⊢
  rw [List.find?_eq_none] at hmiss ⊢
  intro x hx
  have hx' : x ∈ cache.filter (fun kv => kv.1 != k₁) ++ [(k₁, v)] :=
    List.mem_of_mem_drop hx
  rcases List.mem_append.mp hx' with hmem | hmem
  · exact hmiss x (List.mem_of_mem_filter hmem)
  · have hxv : x = (k₁, v) := by simpa using hmem
    subst hxv
    intro hpx
    exact hne (beq_iff_eq.mp hpx).symm

/-- C4: the render-cache key is
`taskType : payloadJson : hub=dependencyEpoch`, and the epoch moves with
the latest artifact modification: a result cached for a payload before
an artifact save is a cache miss for the identical payload after the
save (every stored timestamp being strictly older than the save
time). -/
theorem c4_epoch_invalidation (taskType payloadJson v now : String) (db : HubDbState)
    (i : Nat) (cache : List (String × String))
    (hi : i < db.artifactUpdatedAts.length)
    (hlt : ∀ s ∈ db.artifactUpdatedAts, textLtb s now = true)
    (hmiss : renderCacheGet cache (renderCacheKey taskType payloadJson
      (hubRenderDependencyEpoch (touchArtifact db i now))) = none) :
    renderCacheGet
      (renderCachePut cache
        (renderCacheKey taskType payloadJson (hubRenderDependencyEpoch db)) v)
      (renderCacheKey taskType payloadJson
        (hubRenderDependencyEpoch (touchArtifact db i now))) = none := by
  refine renderCacheGet_put_other cache _ _ v (fun h => ?_) hmiss
  exact hubEpoch_touch_ne db i now hi hlt (renderCacheKey_epoch_inj _ _ _ _ h)

/-- Concrete epoch invalidation: one artifact saved at `2025` over a
`2024` row; the pre-save cache entry misses. -/
theorem c4_epoch_invalidation_witness :
    (0 < (HubDbState.mk ["2024"] ["2020"]).artifactUpdatedAts.length) ∧
    (∀ s ∈ (HubDbState.mk ["2024"] ["2020"]).artifactUpdatedAts,
      textLtb s "2025" = true) ∧
    renderCacheGet
      (renderCachePut []
        (renderCacheKey "render" "p"
          (hubRenderDependencyEpoch (HubDbState.mk ["2024"] ["2020"]))) "html")
      (renderCacheKey "render" "p"
        (hubRenderDependencyEpoch
          (touchArtifact (HubDbState.mk ["2024"] ["2020"]) 0 "2025"))) = none :=
  ⟨by decide, by decide,
    c4_epoch_invalidation "render" "p" "html" "2025" (HubDbState.mk ["2024"] ["2020"]) 0 []
      (by decide) (by decide) (by decide)⟩

/-- Concrete run of the invariant: first request on a fresh store. -/
theorem c10_rate_limiter_invariant_witness :
    (rateStoreGet ([] : List (String × List Int)) "k").length ≤ 1 ∧
    (((rateStoreGet (checkRateLimit [] "k" 1 60 100).1 "k").filter
        (fun t => t > 100 - 60)).length ≤ 1) ∧
    ((checkRateLimit ([] : List (String × List Int)) "k" 1 60 100).2 = none) :=
  ⟨by decide, (c10_rate_limiter_invariant [] "k" 1 60 100 (by decide)).1, by decide⟩

end XatraGui
